import Mathlib

/-!
Verification development for the prisma-adapter-bun driver adapter.

The definitions below are shallow embeddings of the conversion layer
(src/conversion.ts), the adapter and transaction orchestration
(src/adapter.ts) and the error translation (src/errors.ts).

Modelling conventions:
  - JavaScript strings are lists of characters.
  - JavaScript numbers are rationals: every finite double is a rational,
    and Number.isInteger as well as order comparisons on finite doubles
    coincide with the corresponding rational operations.
  - The runtime built-ins JSON.stringify and JSON.parse are modelled
    explicitly below, with number leaves restricted to integers: decimal
    printing and parsing of integral doubles of magnitude below 2 to the
    53rd power is exact, which is the range the adapter JSON path
    exercises; shortest-round-trip printing of non-integral doubles is a
    floating-point concern outside this embedding.  String escaping
    follows the ECMAScript QuoteJSONString algorithm on Unicode scalar
    values (Lean Char has no lone surrogates).
  - Fallible TypeScript code (throw) is modelled with Except / Option,
    and the stateful transaction orchestration with an explicit
    state-and-exception monad recording reserve / release / rollback
    calls on the reserved connection.
-/

/-! ## Model of the JSON.stringify / JSON.parse built-ins -/

mutual

/-- Values producible by JSON.parse, with number leaves restricted to
integers (see the module comment). Object fields keep insertion order, as
JavaScript objects do.  Array elements and object fields use the mutual
list types JsonItems and JsonFields so that all functions on JSON values
are plain structural mutual recursions. -/
inductive Json where
  | null : Json
  | bool : Bool → Json
  | num : Int → Json
  | str : List Char → Json
  | arr : JsonItems → Json
  | obj : JsonFields → Json

/-- Elements of a JSON array, in order. -/
inductive JsonItems where
  | nil : JsonItems
  | cons : Json → JsonItems → JsonItems

/-- Fields of a JSON object, in insertion order. -/
inductive JsonFields where
  | nil : JsonFields
  | cons : List Char → Json → JsonFields → JsonFields

end

/-- Lower-case hexadecimal digit character for a value below 16, also used
as the decimal digit character for values below 10. -/
def hexDigitChar (n : Nat) : Char :=
  if n < 10 then Char.ofNat (48 + n) else Char.ofNat (87 + n)

/-- Escaping of one character inside a JSON string literal, following the
ECMAScript QuoteJSONString algorithm. -/
def escChar (c : Char) : List Char :=
  if c = '"' then ['\\', '"']
  else if c = '\\' then ['\\', '\\']
  else if c = '\x08' then ['\\', 'b']
  else if c = '\x0c' then ['\\', 'f']
  else if c = '\n' then ['\\', 'n']
  else if c = '\r' then ['\\', 'r']
  else if c = '\t' then ['\\', 't']
  else if c.toNat < 32 then
    ['\\', 'u', '0', '0', hexDigitChar (c.toNat / 16), hexDigitChar (c.toNat % 16)]
  else [c]

/-- Escaping of a whole string body. -/
def escStr : List Char → List Char
  | [] => []
  | c :: t => escChar c ++ escStr t

/-- A complete JSON string literal: quote, escaped body, quote. -/
def quoteStr (s : List Char) : List Char := '"' :: (escStr s ++ ['"'])

/-- Decimal digits of a natural number, fuelled so that the kernel can
evaluate it; the fuel argument only needs to dominate the digit count. -/
def natToCharsAux : Nat → Nat → List Char
  | 0, _ => []
  | f + 1, n =>
    if n < 10 then [hexDigitChar n]
    else natToCharsAux f (n / 10) ++ [hexDigitChar (n % 10)]

/-- Decimal digits of a natural number. -/
def natToChars (n : Nat) : List Char := natToCharsAux (n + 1) n

/-- Decimal representation of an integer, as JSON.stringify prints an
integral double (negative zero prints as 0). -/
def intToChars (n : Int) : List Char :=
  if n < 0 then '-' :: natToChars n.natAbs else natToChars n.toNat

mutual

/-- Model of JSON.stringify (no indentation). -/
def jsonStringify : Json → List Char
  | .null => 'n' :: ['u', 'l', 'l']
  | .bool true => 't' :: ['r', 'u', 'e']
  | .bool false => 'f' :: ['a', 'l', 's', 'e']
  | .num n => intToChars n
  | .str s => quoteStr s
  | .arr .nil => ['[', ']']
  | .arr (.cons v t) => '[' :: (jsonStringify v ++ (strItemsRest t ++ [']']))
  | .obj .nil => ['\x7b', '\x7d']
  | .obj (.cons k v t) =>
    '\x7b' :: (quoteStr k ++ (':' :: (jsonStringify v ++ (strFieldsRest t ++ ['\x7d']))))

/-- Stringification of the remaining elements of an array, each preceded
by a comma. -/
def strItemsRest : JsonItems → List Char
  | .nil => []
  | .cons v t => ',' :: (jsonStringify v ++ strItemsRest t)

/-- Stringification of the remaining fields of an object, each preceded
by a comma. -/
def strFieldsRest : JsonFields → List Char
  | .nil => []
  | .cons k v t => ',' :: (quoteStr k ++ (':' :: (jsonStringify v ++ strFieldsRest t)))

end

/-- JSON insignificant whitespace. -/
def isWsChar (c : Char) : Bool := c = ' ' || c = '\t' || c = '\n' || c = '\r'

/-- Skipping insignificant whitespace. -/
def skipWs (l : List Char) : List Char := l.dropWhile isWsChar

/-- Consuming an expected literal character sequence. -/
def dropLit : List Char → List Char → Option (List Char)
  | [], l => some l
  | _ :: _, [] => none
  | c :: p, x :: l => if x = c then dropLit p l else none

/-- Hexadecimal digit test (both cases), as in a JSON \u escape. -/
def isHexChar (c : Char) : Bool :=
  ('0' ≤ c && c ≤ '9') || ('a' ≤ c && c ≤ 'f') || ('A' ≤ c && c ≤ 'F')

/-- Value of a hexadecimal digit character. -/
def hexVal (c : Char) : Nat :=
  if '0' ≤ c && c ≤ '9' then c.toNat - 48
  else if 'a' ≤ c && c ≤ 'f' then c.toNat - 87
  else c.toNat - 55

/-- Prepending a decoded character to the result of a string-body parse. -/
def consStrParse (c : Char) : Option (List Char × List Char) → Option (List Char × List Char)
  | some (s, r) => some (c :: s, r)
  | none => none

/-- Parse the body of a JSON string literal after the opening quote,
returning the decoded body and the input after the closing quote.
Escape handling follows JSON.parse; the model is lenient about raw
control characters, which never occur in JSON.stringify output. -/
def parseStrBody : List Char → Option (List Char × List Char)
  | [] => none
  | c :: r =>
    if c = '"' then some ([], r)
    else if c = '\\' then
      match r with
      | [] => none
      | e :: r1 =>
        if e = '"' then consStrParse '"' (parseStrBody r1)
        else if e = '\\' then consStrParse '\\' (parseStrBody r1)
        else if e = '/' then consStrParse '/' (parseStrBody r1)
        else if e = 'b' then consStrParse '\x08' (parseStrBody r1)
        else if e = 'f' then consStrParse '\x0c' (parseStrBody r1)
        else if e = 'n' then consStrParse '\n' (parseStrBody r1)
        else if e = 'r' then consStrParse '\r' (parseStrBody r1)
        else if e = 't' then consStrParse '\t' (parseStrBody r1)
        else if e = 'u' then
          match r1 with
          | h1 :: h2 :: h3 :: h4 :: r2 =>
            if isHexChar h1 && isHexChar h2 && isHexChar h3 && isHexChar h4 then
              consStrParse
                (Char.ofNat (((hexVal h1 * 16 + hexVal h2) * 16 + hexVal h3) * 16 + hexVal h4))
                (parseStrBody r2)
            else none
          | _ => none
        else none
    else consStrParse c (parseStrBody r)

/-- Value of a list of decimal digit characters, most significant first. -/
def digitsVal (l : List Char) : Nat := l.foldl (fun acc c => 10 * acc + (c.toNat - 48)) 0

/-- Parse a non-empty run of decimal digits.  The model restricts the JSON
number grammar to integers (see the module comment), so fraction and
exponent parts are not accepted. -/
def parseNatNum (l : List Char) : Option (Nat × List Char) :=
  let p := l.span Char.isDigit
  if p.1.isEmpty then none else some (digitsVal p.1, p.2)

mutual

/-- Fuelled model of JSON.parse for one value; returns the value and the
unconsumed input.  Fuel bounds the nesting of the recursive descent and is
chosen large enough by the top-level entry point. -/
def parseV : Nat → List Char → Option (Json × List Char)
  | 0, _ => none
  | f + 1, cs =>
    match skipWs cs with
    | [] => none
    | c :: r =>
      if c = 'n' then
        match dropLit ['u', 'l', 'l'] r with
        | some r1 => some (.null, r1)
        | none => none
      else if c = 't' then
        match dropLit ['r', 'u', 'e'] r with
        | some r1 => some (.bool true, r1)
        | none => none
      else if c = 'f' then
        match dropLit ['a', 'l', 's', 'e'] r with
        | some r1 => some (.bool false, r1)
        | none => none
      else if c = '"' then
        match parseStrBody r with
        | some (s, r1) => some (.str s, r1)
        | none => none
      else if c = '[' then
        match skipWs r with
        | [] => none
        | c1 :: r1 =>
          if c1 = ']' then some (.arr .nil, r1)
          else
            match parseItems f (c1 :: r1) with
            | some (l, r2) =>
              match skipWs r2 with
              | c2 :: r3 => if c2 = ']' then some (.arr l, r3) else none
              | [] => none
            | none => none
      else if c = '\x7b' then
        match skipWs r with
        | [] => none
        | c1 :: r1 =>
          if c1 = '\x7d' then some (.obj .nil, r1)
          else
            match parseFields f (c1 :: r1) with
            | some (l, r2) =>
              match skipWs r2 with
              | c2 :: r3 => if c2 = '\x7d' then some (.obj l, r3) else none
              | [] => none
            | none => none
      else if c = '-' then
        match parseNatNum r with
        | some (m, r1) => some (.num (-(m : Int)), r1)
        | none => none
      else if c.isDigit then
        match parseNatNum (c :: r) with
        | some (m, r1) => some (.num (m : Int), r1)
        | none => none
      else none

/-- Parse one or more comma-separated array elements. -/
def parseItems : Nat → List Char → Option (JsonItems × List Char)
  | 0, _ => none
  | f + 1, cs =>
    match parseV f cs with
    | some (v, r1) =>
      match skipWs r1 with
      | c :: r2 =>
        if c = ',' then
          match parseItems f r2 with
          | some (l, r3) => some (.cons v l, r3)
          | none => none
        else some (.cons v .nil, r1)
      | [] => some (.cons v .nil, r1)
    | none => none

/-- Parse one or more comma-separated object fields. -/
def parseFields : Nat → List Char → Option (JsonFields × List Char)
  | 0, _ => none
  | f + 1, cs =>
    match skipWs cs with
    | [] => none
    | c :: r =>
      if c = '"' then
        match parseStrBody r with
        | some (k, r1) =>
          match skipWs r1 with
          | c1 :: r2 =>
            if c1 = ':' then
              match parseV f r2 with
              | some (v, r3) =>
                match skipWs r3 with
                | c2 :: r4 =>
                  if c2 = ',' then
                    match parseFields f r4 with
                    | some (l, r5) => some (.cons k v l, r5)
                    | none => none
                  else some (.cons k v .nil, r3)
                | [] => some (.cons k v .nil, r3)
              | none => none
            else none
          | [] => none
        | none => none
      else none

end

/-- Model of JSON.parse: parse one value and require only whitespace to
remain.  The fuel is one more than the input length, which dominates every
possible nesting depth. -/
def jsonParse (s : List Char) : Option Json :=
  match parseV (s.length + 1) s with
  | some (v, rest) => if skipWs rest = [] then some v else none
  | none => none

/-! ## Round-trip of the JSON model: auxiliary lemmas -/

mutual

/-- Fuel measure for the recursive-descent parser: a bound on the nesting
depth consumed by parseV on the stringified form. -/
def jsonSize : Json → Nat
  | .null => 1
  | .bool _ => 1
  | .num _ => 1
  | .str _ => 1
  | .arr .nil => 1
  | .arr (.cons v t) => 2 + jsonSize v + itemsSize t
  | .obj .nil => 1
  | .obj (.cons _ v t) => 2 + jsonSize v + fieldsSize t

/-- Fuel measure for the remaining elements of an array. -/
def itemsSize : JsonItems → Nat
  | .nil => 0
  | .cons v t => 1 + jsonSize v + itemsSize t

/-- Fuel measure for the remaining fields of an object. -/
def fieldsSize : JsonFields → Nat
  | .nil => 0
  | .cons _ v t => 1 + jsonSize v + fieldsSize t

end

theorem jsonSize_pos (v : Json) : 1 ≤ jsonSize v := by
  cases v with
  | null => simp [jsonSize]
  | bool b => simp [jsonSize]
  | num n => simp [jsonSize]
  | str s => simp [jsonSize]
  | arr t => cases t <;> simp only [jsonSize] <;> omega
  | obj t => cases t <;> simp only [jsonSize] <;> omega

theorem toNat_hexDigitChar (n : Nat) (h : n < 10) : (hexDigitChar n).toNat = 48 + n := by
  interval_cases n <;> rfl

theorem isDigit_hexDigitChar (n : Nat) (h : n < 10) : (hexDigitChar n).isDigit = true := by
  interval_cases n <;> decide

theorem hexVal_hexDigitChar (n : Nat) (h : n < 16) : hexVal (hexDigitChar n) = n := by
  interval_cases n <;> decide

theorem isHexChar_hexDigitChar (n : Nat) (h : n < 16) : isHexChar (hexDigitChar n) = true := by
  interval_cases n <;> decide

theorem isDigit_toNat {c : Char} (h : c.isDigit = true) : 48 ≤ c.toNat ∧ c.toNat ≤ 57 := by
  simp [Char.isDigit] at h
  obtain ⟨h1, h2⟩ := h
  exact ⟨h1, h2⟩

theorem isDigit_ne {c d : Char} (h : c.isDigit = true) (hd : d.isDigit = false) : c ≠ d := by
  intro he
  rw [he] at h
  rw [h] at hd
  cases hd

theorem isWsChar_of_isDigit {c : Char} (h : c.isDigit = true) : isWsChar c = false := by
  simp only [isWsChar]
  have e1 : (c = ' ') = False := by
    simp only [eq_iff_iff, iff_false]
    intro he; rw [he] at h; exact absurd h (by decide)
  have e2 : (c = '\t') = False := by
    simp only [eq_iff_iff, iff_false]
    intro he; rw [he] at h; exact absurd h (by decide)
  have e3 : (c = '\n') = False := by
    simp only [eq_iff_iff, iff_false]
    intro he; rw [he] at h; exact absurd h (by decide)
  have e4 : (c = '\r') = False := by
    simp only [eq_iff_iff, iff_false]
    intro he; rw [he] at h; exact absurd h (by decide)
  simp [e1, e2, e3, e4]

theorem digitsVal_append_digit (l : List Char) (c : Char) :
    digitsVal (l ++ [c]) = 10 * digitsVal l + (c.toNat - 48) := by
  simp [digitsVal, List.foldl_append]

theorem natToCharsAux_spec : ∀ (f n : Nat), 0 < f → n < 10 ^ f →
    (natToCharsAux f n).all Char.isDigit = true ∧ natToCharsAux f n ≠ [] ∧
      digitsVal (natToCharsAux f n) = n := by
  intro f
  induction f with
  | zero => intro n h; omega
  | succ f ih =>
    intro n _ hlt
    by_cases hn : n < 10
    · refine ⟨?_, ?_, ?_⟩
      · simp [natToCharsAux, hn, isDigit_hexDigitChar n hn]
      · simp [natToCharsAux, hn]
      · simp [natToCharsAux, hn, digitsVal, toNat_hexDigitChar n hn]
    · have hf : 0 < f := by
        rcases Nat.eq_zero_or_pos f with hf0 | hf0
        · subst hf0; simp at hlt; omega
        · exact hf0
      have hdiv : n / 10 < 10 ^ f := by
        have : n < 10 ^ f * 10 := by
          calc n < 10 ^ (f + 1) := hlt
          _ = 10 ^ f * 10 := by ring
        omega
      obtain ⟨ha, hne, hv⟩ := ih (n / 10) hf hdiv
      have hmod : n % 10 < 10 := Nat.mod_lt _ (by omega)
      refine ⟨?_, ?_, ?_⟩
      · simp [natToCharsAux, hn, List.all_append, ha, isDigit_hexDigitChar _ hmod]
      · simp [natToCharsAux, hn]
      · simp only [natToCharsAux, if_neg hn]
        rw [digitsVal_append_digit, hv, toNat_hexDigitChar _ hmod]
        omega

theorem natToChars_spec (n : Nat) :
    (natToChars n).all Char.isDigit = true ∧ natToChars n ≠ [] ∧
      digitsVal (natToChars n) = n := by
  apply natToCharsAux_spec
  · omega
  · calc n < 10 ^ n := Nat.lt_pow_self (by omega) n
    _ ≤ 10 ^ (n + 1) := Nat.pow_le_pow_right (by omega) (Nat.le_succ n)

theorem skipWs_cons {c : Char} {t : List Char} (h : isWsChar c = false) :
    skipWs (c :: t) = c :: t := by
  simp [skipWs, List.dropWhile_cons, h]

theorem takeWhile_all_append (p : Char → Bool) (l r : List Char)
    (hl : l.all p = true) (hr : r.takeWhile p = []) : (l ++ r).takeWhile p = l := by
  induction l with
  | nil => simpa using hr
  | cons c t ih =>
    simp only [List.all_cons, Bool.and_eq_true] at hl
    simp [List.takeWhile_cons, hl.1, ih hl.2]

theorem dropWhile_all_append (p : Char → Bool) (l r : List Char)
    (hl : l.all p = true) (hr : r.dropWhile p = r) : (l ++ r).dropWhile p = r := by
  induction l with
  | nil => simpa using hr
  | cons c t ih =>
    simp only [List.all_cons, Bool.and_eq_true] at hl
    simp [List.dropWhile_cons, hl.1, ih hl.2]

/-- The continuation after a printed value always starts with a delimiter
(or is empty), which stops the digit scanner of the number parser. -/
def delimOk (r : List Char) : Prop :=
  r = [] ∨ (∃ t, r = ',' :: t) ∨ (∃ t, r = ']' :: t) ∨ (∃ t, r = '\x7d' :: t)

theorem delimOk_takeWhile {r : List Char} (h : delimOk r) :
    r.takeWhile Char.isDigit = [] := by
  rcases h with h | ⟨t, h⟩ | ⟨t, h⟩ | ⟨t, h⟩ <;> subst h <;> simp [List.takeWhile_cons]

theorem delimOk_dropWhile {r : List Char} (h : delimOk r) :
    r.dropWhile Char.isDigit = r := by
  rcases h with h | ⟨t, h⟩ | ⟨t, h⟩ | ⟨t, h⟩ <;> subst h <;> simp [List.dropWhile_cons]

theorem parseNatNum_digits (ds rest : List Char) (h1 : ds.all Char.isDigit = true)
    (h2 : ds ≠ []) (h3 : delimOk rest) :
    parseNatNum (ds ++ rest) = some (digitsVal ds, rest) := by
  have ht : (ds ++ rest).takeWhile Char.isDigit = ds :=
    takeWhile_all_append _ _ _ h1 (delimOk_takeWhile h3)
  have hd : (ds ++ rest).dropWhile Char.isDigit = rest :=
    dropWhile_all_append _ _ _ h1 (delimOk_dropWhile h3)
  simp [parseNatNum, List.span_eq_take_drop, ht, hd, h2]

theorem parseStrBody_escStr : ∀ (s rest : List Char),
    parseStrBody (escStr s ++ ('"' :: rest)) = some (s, rest) := by
  intro s
  induction s with
  | nil =>
    intro rest
    simp only [escStr, List.nil_append]
    rw [parseStrBody.eq_def]
    simp
  | cons c t ih =>
    intro rest
    simp only [escStr, List.append_assoc]
    by_cases h1 : c = '"'
    · subst h1
      rw [show escChar '"' = ['\\', '"'] from by decide]
      rw [List.cons_append, List.cons_append, List.nil_append, parseStrBody.eq_def]
      simp +decide [consStrParse, ih]
    · by_cases h2 : c = '\\'
      · subst h2
        rw [show escChar '\\' = ['\\', '\\'] from by decide]
        rw [List.cons_append, List.cons_append, List.nil_append, parseStrBody.eq_def]
        simp +decide [consStrParse, ih]
      · by_cases h3 : c = '\x08'
        · subst h3
          rw [show escChar '\x08' = ['\\', 'b'] from by decide]
          rw [List.cons_append, List.cons_append, List.nil_append, parseStrBody.eq_def]
          simp +decide [consStrParse, ih]
        · by_cases h4 : c = '\x0c'
          · subst h4
            rw [show escChar '\x0c' = ['\\', 'f'] from by decide]
            rw [List.cons_append, List.cons_append, List.nil_append, parseStrBody.eq_def]
            simp +decide [consStrParse, ih]
          · by_cases h5 : c = '\n'
            · subst h5
              rw [show escChar '\n' = ['\\', 'n'] from by decide]
              rw [List.cons_append, List.cons_append, List.nil_append, parseStrBody.eq_def]
              simp +decide [consStrParse, ih]
            · by_cases h6 : c = '\r'
              · subst h6
                rw [show escChar '\r' = ['\\', 'r'] from by decide]
                rw [List.cons_append, List.cons_append, List.nil_append, parseStrBody.eq_def]
                simp +decide [consStrParse, ih]
              · by_cases h7 : c = '\t'
                · subst h7
                  rw [show escChar '\t' = ['\\', 't'] from by decide]
                  rw [List.cons_append, List.cons_append, List.nil_append, parseStrBody.eq_def]
                  simp +decide [consStrParse, ih]
                · by_cases h8 : c.toNat < 32
                  · have hd16 : c.toNat / 16 < 16 := by omega
                    have hm16 : c.toNat % 16 < 16 := by omega
                    simp only [escChar, if_neg h1, if_neg h2, if_neg h3, if_neg h4, if_neg h5,
                      if_neg h6, if_neg h7, if_pos h8, List.cons_append, List.nil_append]
                    rw [parseStrBody.eq_def]
                    simp +decide [isHexChar_hexDigitChar _ hd16, isHexChar_hexDigitChar _ hm16]
                    have hcode : ((hexVal '0' * 16 + hexVal '0') * 16
                        + hexVal (hexDigitChar (c.toNat / 16))) * 16
                        + hexVal (hexDigitChar (c.toNat % 16)) = c.toNat := by
                      rw [hexVal_hexDigitChar _ hd16, hexVal_hexDigitChar _ hm16]
                      rw [show hexVal '0' = 0 from by decide]
                      omega
                    rw [hcode, Char.ofNat_toNat, ih rest]
                    simp [consStrParse]
                  · simp only [escChar, if_neg h1, if_neg h2, if_neg h3, if_neg h4, if_neg h5,
                      if_neg h6, if_neg h7, if_neg h8, List.cons_append, List.nil_append]
                    rw [parseStrBody.eq_def]
                    simp [if_neg h1, if_neg h2, ih rest, consStrParse]

theorem isDigit_ne_of_false {c d : Char} (h : c.isDigit = true) (hd : d.isDigit = false) :
    c ≠ d := by
  intro he
  rw [he, hd] at h
  cases h

theorem stringify_head (v : Json) :
    ∃ c t, jsonStringify v = c :: t ∧ isWsChar c = false ∧ c ≠ ']' ∧ c ≠ '\x7d' := by
  cases v with
  | null => refine ⟨'n', _, rfl, ?_, ?_, ?_⟩ <;> decide
  | bool b => cases b with
    | true => refine ⟨'t', _, rfl, ?_, ?_, ?_⟩ <;> decide
    | false => refine ⟨'f', _, rfl, ?_, ?_, ?_⟩ <;> decide
  | num n =>
    by_cases hn : n < 0
    · refine ⟨'-', natToChars n.natAbs, ?_, by decide, by decide, by decide⟩
      simp [jsonStringify, intToChars, hn]
    · obtain ⟨hall, hne, _⟩ := natToChars_spec n.toNat
      obtain ⟨d, ds, hd⟩ := List.exists_cons_of_ne_nil hne
      have hdig : d.isDigit = true := by
        have := List.all_eq_true.mp hall d (by rw [hd]; exact List.mem_cons_self _ _)
        simpa using this
      refine ⟨d, ds, ?_, isWsChar_of_isDigit hdig, ?_, ?_⟩
      · simp [jsonStringify, intToChars, hn, hd]
      · exact isDigit_ne_of_false hdig (by decide)
      · exact isDigit_ne_of_false hdig (by decide)
  | str s => refine ⟨'"', _, rfl, ?_, ?_, ?_⟩ <;> decide
  | arr t => cases t with
    | nil => refine ⟨'[', _, rfl, ?_, ?_, ?_⟩ <;> decide
    | cons v t => refine ⟨'[', _, rfl, ?_, ?_, ?_⟩ <;> decide
  | obj t => cases t with
    | nil => refine ⟨'\x7b', _, rfl, ?_, ?_, ?_⟩ <;> decide
    | cons k v t => refine ⟨'\x7b', _, rfl, ?_, ?_, ?_⟩ <;> decide

theorem parse_stringify_fuel : ∀ f : Nat,
    (∀ (v : Json) (rest : List Char), jsonSize v ≤ f → delimOk rest →
        parseV f (jsonStringify v ++ rest) = some (v, rest))
  ∧ (∀ (v : Json) (t : JsonItems) (rest : List Char), jsonSize v + itemsSize t < f →
        parseItems f (jsonStringify v ++ (strItemsRest t ++ (']' :: rest))) =
          some (JsonItems.cons v t, ']' :: rest))
  ∧ (∀ (k : List Char) (v : Json) (t : JsonFields) (rest : List Char),
        jsonSize v + fieldsSize t < f →
        parseFields f
            (quoteStr k ++ (':' :: (jsonStringify v ++ (strFieldsRest t ++ ('\x7d' :: rest))))) =
          some (JsonFields.cons k v t, '\x7d' :: rest)) := by
  intro f
  induction f with
  | zero =>
    refine ⟨fun v rest h _ => absurd h ?_, fun v t rest h => absurd h (by omega),
      fun k v t rest h => absurd h (by omega)⟩
    have := jsonSize_pos v
    omega
  | succ f ih =>
    obtain ⟨ihA, ihB, ihC⟩ := ih
    refine ⟨?_, ?_, ?_⟩
    · intro v rest hsz hrest
      cases v with
      | null =>
        simp only [jsonStringify, List.cons_append, List.nil_append]
        rw [parseV.eq_2, skipWs_cons (show isWsChar 'n' = false by decide)]
        simp +decide [dropLit]
      | bool b =>
        cases b with
        | true =>
          simp only [jsonStringify, List.cons_append, List.nil_append]
          rw [parseV.eq_2, skipWs_cons (show isWsChar 't' = false by decide)]
          simp +decide [dropLit]
        | false =>
          simp only [jsonStringify, List.cons_append, List.nil_append]
          rw [parseV.eq_2, skipWs_cons (show isWsChar 'f' = false by decide)]
          simp +decide [dropLit]
      | num n =>
        by_cases hn : n < 0
        · obtain ⟨hall, hne, hval⟩ := natToChars_spec n.natAbs
          have hp : parseNatNum (natToChars n.natAbs ++ rest) =
              some (digitsVal (natToChars n.natAbs), rest) :=
            parseNatNum_digits _ _ hall hne hrest
          simp only [jsonStringify, intToChars, if_pos hn, List.cons_append]
          rw [parseV.eq_2, skipWs_cons (show isWsChar '-' = false by decide)]
          simp +decide [hp]
          omega
        · obtain ⟨hall, hne, hval⟩ := natToChars_spec n.toNat
          obtain ⟨d, ds, hd⟩ := List.exists_cons_of_ne_nil hne
          have hdig : d.isDigit = true := by
            have := List.all_eq_true.mp hall d (by rw [hd]; exact List.mem_cons_self _ _)
            simpa using this
          have hp : parseNatNum (natToChars n.toNat ++ rest) =
              some (digitsVal (natToChars n.toNat), rest) :=
            parseNatNum_digits _ _ hall hne hrest
          simp only [jsonStringify, intToChars, if_neg hn]
          rw [hd, List.cons_append, parseV.eq_2, skipWs_cons (isWsChar_of_isDigit hdig)]
          simp only [if_neg (isDigit_ne_of_false hdig (by decide) : d ≠ 'n'),
            if_neg (isDigit_ne_of_false hdig (by decide) : d ≠ 't'),
            if_neg (isDigit_ne_of_false hdig (by decide) : d ≠ 'f'),
            if_neg (isDigit_ne_of_false hdig (by decide) : d ≠ '"'),
            if_neg (isDigit_ne_of_false hdig (by decide) : d ≠ '['),
            if_neg (isDigit_ne_of_false hdig (by decide) : d ≠ '\x7b'),
            if_neg (isDigit_ne_of_false hdig (by decide) : d ≠ '-'),
            if_pos hdig]
          rw [← List.cons_append, ← hd, hp]
          simp
          omega
      | str s =>
        simp only [jsonStringify, quoteStr, List.cons_append, List.append_assoc,
          List.singleton_append]
        rw [parseV.eq_2, skipWs_cons (show isWsChar '"' = false by decide)]
        simp +decide [parseStrBody_escStr]
      | arr t =>
        cases t with
        | nil =>
          simp only [jsonStringify, List.cons_append, List.nil_append]
          rw [parseV.eq_2, skipWs_cons (show isWsChar '[' = false by decide)]
          simp +decide [skipWs_cons (show isWsChar ']' = false by decide)]
        | cons w t =>
          obtain ⟨c0, t0, hw, hw1, hw2, hw3⟩ := stringify_head w
          have hlt : jsonSize w + itemsSize t < f := by
            simp only [jsonSize] at hsz; omega
          have hB := ihB w t rest hlt
          simp only [jsonStringify, List.cons_append, List.append_assoc, List.singleton_append]
          rw [parseV.eq_2, skipWs_cons (show isWsChar '[' = false by decide)]
          simp +decide only [if_neg, if_true, List.nil_append]
          rw [hw, List.cons_append, skipWs_cons hw1]
          simp only [if_neg hw2]
          rw [← List.cons_append, ← hw, hB]
          simp +decide [skipWs_cons (show isWsChar ']' = false by decide)]
      | obj t =>
        cases t with
        | nil =>
          simp only [jsonStringify, List.cons_append, List.nil_append]
          rw [parseV.eq_2, skipWs_cons (show isWsChar '\x7b' = false by decide)]
          simp +decide [skipWs_cons (show isWsChar '\x7d' = false by decide)]
        | cons k w t =>
          have hlt : jsonSize w + fieldsSize t < f := by
            simp only [jsonSize] at hsz; omega
          have hC := ihC k w t rest hlt
          simp only [quoteStr, List.cons_append, List.append_assoc, List.singleton_append,
            List.nil_append] at hC
          simp only [jsonStringify, quoteStr, List.cons_append, List.append_assoc,
            List.singleton_append]
          rw [parseV.eq_2, skipWs_cons (show isWsChar '\x7b' = false by decide)]
          simp +decide only [if_neg, if_true, List.nil_append]
          rw [skipWs_cons (show isWsChar '"' = false by decide)]
          simp +decide only [if_neg]
          rw [hC]
          simp +decide [skipWs_cons (show isWsChar '\x7d' = false by decide)]
    · intro v t rest h
      cases t with
      | nil =>
        have hA := ihA v (']' :: rest) (by simp only [itemsSize] at h; omega)
          (Or.inr (Or.inr (Or.inl ⟨rest, rfl⟩)))
        simp only [strItemsRest, List.nil_append]
        rw [parseItems.eq_2, hA]
        simp +decide only [if_pos, if_neg, skipWs_cons (show isWsChar ']' = false by decide)]
      | cons w ws =>
        have hwpos := jsonSize_pos w
        have hvpos := jsonSize_pos v
        simp only [itemsSize] at h
        have hA := ihA v (',' :: (jsonStringify w ++ (strItemsRest ws ++ (']' :: rest))))
          (by omega) (Or.inr (Or.inl ⟨_, rfl⟩))
        have hB2 := ihB w ws rest (by omega)
        simp only [strItemsRest, List.cons_append, List.append_assoc]
        rw [parseItems.eq_2, hA]
        simp +decide only [if_pos, if_neg, skipWs_cons (show isWsChar ',' = false by decide), hB2]
    · intro k v t rest h
      cases t with
      | nil =>
        have hA := ihA v ('\x7d' :: rest) (by simp only [fieldsSize] at h; omega)
          (Or.inr (Or.inr (Or.inr ⟨rest, rfl⟩)))
        simp only [strFieldsRest, List.nil_append, quoteStr, List.cons_append, List.append_assoc,
          List.singleton_append]
        rw [parseFields.eq_2]
        rw [skipWs_cons (show isWsChar '"' = false by decide)]
        simp +decide only [if_pos, if_neg, parseStrBody_escStr, hA,
          skipWs_cons (show isWsChar ':' = false by decide),
          skipWs_cons (show isWsChar '\x7d' = false by decide)]
      | cons k2 v2 t2 =>
        have hvpos := jsonSize_pos v
        have hv2pos := jsonSize_pos v2
        simp only [fieldsSize] at h
        have hA := ihA v
          (',' :: (quoteStr k2 ++ (':' :: (jsonStringify v2 ++ (strFieldsRest t2 ++ ('\x7d' :: rest))))))
          (by omega) (Or.inr (Or.inl ⟨_, rfl⟩))
        have hC2 := ihC k2 v2 t2 rest (by omega)
        simp only [strFieldsRest, quoteStr, List.cons_append, List.append_assoc,
          List.singleton_append, List.nil_append]
        simp only [quoteStr, List.cons_append, List.append_assoc, List.singleton_append,
          List.nil_append] at hA hC2
        rw [parseFields.eq_2]
        rw [skipWs_cons (show isWsChar '"' = false by decide)]
        simp +decide only [if_pos, if_neg, parseStrBody_escStr, hA, hC2,
          skipWs_cons (show isWsChar ':' = false by decide),
          skipWs_cons (show isWsChar ',' = false by decide)]

theorem natToChars_ne_nil (n : Nat) : natToChars n ≠ [] := (natToChars_spec n).2.1

mutual

theorem jsonSize_le_length : ∀ v : Json, jsonSize v ≤ (jsonStringify v).length
  | .null => by simp [jsonSize, jsonStringify]
  | .bool b => by cases b <;> simp [jsonSize, jsonStringify]
  | .num n => by
    have h : jsonStringify (.num n) ≠ [] := by
      simp only [jsonStringify, intToChars]
      split
      · simp
      · exact natToChars_ne_nil _
    have : 0 < (jsonStringify (.num n)).length := List.length_pos.mpr h
    simp only [jsonSize]
    omega
  | .str s => by simp [jsonSize, jsonStringify, quoteStr]
  | .arr .nil => by simp [jsonSize, jsonStringify]
  | .arr (.cons v t) => by
    have h1 := jsonSize_le_length v
    have h2 := itemsSize_le_length t
    simp only [jsonSize, jsonStringify, List.length_cons, List.length_append, List.length_singleton]
    omega
  | .obj .nil => by simp [jsonSize, jsonStringify]
  | .obj (.cons k v t) => by
    have h1 := jsonSize_le_length v
    have h2 := fieldsSize_le_length t
    simp only [jsonSize, jsonStringify, List.length_cons, List.length_append, List.length_singleton]
    omega

theorem itemsSize_le_length : ∀ t : JsonItems, itemsSize t ≤ (strItemsRest t).length
  | .nil => by simp [itemsSize, strItemsRest]
  | .cons v t => by
    have h1 := jsonSize_le_length v
    have h2 := itemsSize_le_length t
    simp only [itemsSize, strItemsRest, List.length_cons, List.length_append]
    omega

theorem fieldsSize_le_length : ∀ t : JsonFields, fieldsSize t ≤ (strFieldsRest t).length
  | .nil => by simp [fieldsSize, strFieldsRest]
  | .cons k v t => by
    have h1 := jsonSize_le_length v
    have h2 := fieldsSize_le_length t
    simp only [fieldsSize, strFieldsRest, List.length_cons, List.length_append]
    omega

end

/-- Round trip of the modelled built-ins: JSON.parse recovers exactly the
value JSON.stringify printed. -/
theorem jsonParse_stringify (v : Json) : jsonParse (jsonStringify v) = some v := by
  have h := (parse_stringify_fuel ((jsonStringify v).length + 1)).1 v []
    (le_trans (jsonSize_le_length v) (Nat.le_succ _)) (Or.inl rfl)
  rw [List.append_nil] at h
  simp [jsonParse, h, skipWs]

/-! ## PostgreSQL OIDs (src/conversion.ts, PgOid table) -/

def PgOid.BIT : Nat := 1560
def PgOid.BIT_ARRAY : Nat := 1561
def PgOid.BOOL : Nat := 16
def PgOid.BOOL_ARRAY : Nat := 1000
def PgOid.BPCHAR : Nat := 1042
def PgOid.BPCHAR_ARRAY : Nat := 1014
def PgOid.BYTEA : Nat := 17
def PgOid.BYTEA_ARRAY : Nat := 1001
def PgOid.CHAR : Nat := 18
def PgOid.CHAR_ARRAY : Nat := 1002
def PgOid.CIDR : Nat := 650
def PgOid.CIDR_ARRAY : Nat := 651
def PgOid.DATE : Nat := 1082
def PgOid.DATE_ARRAY : Nat := 1182
def PgOid.FLOAT4 : Nat := 700
def PgOid.FLOAT4_ARRAY : Nat := 1021
def PgOid.FLOAT8 : Nat := 701
def PgOid.FLOAT8_ARRAY : Nat := 1022
def PgOid.INET : Nat := 869
def PgOid.INET_ARRAY : Nat := 1041
def PgOid.INT2 : Nat := 21
def PgOid.INT2_ARRAY : Nat := 1005
def PgOid.INT4 : Nat := 23
def PgOid.INT4_ARRAY : Nat := 1007
def PgOid.INT8 : Nat := 20
def PgOid.INT8_ARRAY : Nat := 1016
def PgOid.JSON : Nat := 114
def PgOid.JSON_ARRAY : Nat := 199
def PgOid.JSONB : Nat := 3802
def PgOid.JSONB_ARRAY : Nat := 3807
def PgOid.MONEY : Nat := 790
def PgOid.MONEY_ARRAY : Nat := 791
def PgOid.NAME : Nat := 19
def PgOid.NAME_ARRAY : Nat := 1003
def PgOid.NUMERIC : Nat := 1700
def PgOid.NUMERIC_ARRAY : Nat := 1231
def PgOid.OID : Nat := 26
def PgOid.OID_ARRAY : Nat := 1028
def PgOid.TEXT : Nat := 25
def PgOid.TEXT_ARRAY : Nat := 1009
def PgOid.TIME : Nat := 1083
def PgOid.TIME_ARRAY : Nat := 1183
def PgOid.TIMESTAMP : Nat := 1114
def PgOid.TIMESTAMP_ARRAY : Nat := 1115
def PgOid.TIMESTAMPTZ : Nat := 1184
def PgOid.TIMESTAMPTZ_ARRAY : Nat := 1185
def PgOid.TIMETZ : Nat := 1266
def PgOid.TIMETZ_ARRAY : Nat := 1270
def PgOid.UUID : Nat := 2950
def PgOid.UUID_ARRAY : Nat := 2951
def PgOid.VARBIT : Nat := 1562
def PgOid.VARBIT_ARRAY : Nat := 1563
def PgOid.VARCHAR : Nat := 1043
def PgOid.VARCHAR_ARRAY : Nat := 1015
def PgOid.XML : Nat := 142
def PgOid.XML_ARRAY : Nat := 143

/-- OID threshold of src/conversion.ts: types at or above it are
user-defined (enums, composites, and so on). -/
def FIRST_NORMAL_OBJECT_ID : Nat := 16384

/-! ## ColumnType (the closed Prisma enumeration) and the two mapping tables -/

/-- The engine-facing column types used by the adapter (the members of
ColumnTypeEnum that the two mapping tables mention). -/
inductive ColumnType where
  | int32 | int64 | float | double | boolean | date | time | dateTime | numeric
  | json | uuid | text | character | bytes
  | int32Array | int64Array | floatArray | doubleArray | booleanArray | dateArray
  | timeArray | dateTimeArray | numericArray | jsonArray | uuidArray | textArray
  | characterArray | bytesArray
deriving DecidableEq

/-- Entries of the scalarMapping record of src/conversion.ts, in source
order.  A JavaScript record with numeric keys is a finite map; lookup is
by key. -/
def scalarMappingList : List (Nat × ColumnType) :=
  [(PgOid.INT2, .int32), (PgOid.INT4, .int32), (PgOid.INT8, .int64),
   (PgOid.FLOAT4, .float), (PgOid.FLOAT8, .double), (PgOid.BOOL, .boolean),
   (PgOid.DATE, .date), (PgOid.TIME, .time), (PgOid.TIMETZ, .time),
   (PgOid.TIMESTAMP, .dateTime), (PgOid.TIMESTAMPTZ, .dateTime),
   (PgOid.NUMERIC, .numeric), (PgOid.MONEY, .numeric), (PgOid.JSON, .json),
   (PgOid.JSONB, .json), (PgOid.UUID, .uuid), (PgOid.OID, .int64),
   (PgOid.BPCHAR, .text), (PgOid.TEXT, .text), (PgOid.VARCHAR, .text),
   (PgOid.BIT, .text), (PgOid.VARBIT, .text), (PgOid.INET, .text),
   (PgOid.CIDR, .text), (PgOid.XML, .text), (PgOid.NAME, .text),
   (PgOid.CHAR, .character), (PgOid.BYTEA, .bytes)]

/-- Lookup in the scalarMapping record. -/
def scalarMapping (oid : Nat) : Option ColumnType := scalarMappingList.lookup oid

/-- Entries of the arrayMapping record of src/conversion.ts, in source
order. -/
def arrayMappingList : List (Nat × ColumnType) :=
  [(PgOid.INT2_ARRAY, .int32Array), (PgOid.INT4_ARRAY, .int32Array),
   (PgOid.INT8_ARRAY, .int64Array), (PgOid.FLOAT4_ARRAY, .floatArray),
   (PgOid.FLOAT8_ARRAY, .doubleArray), (PgOid.BOOL_ARRAY, .booleanArray),
   (PgOid.DATE_ARRAY, .dateArray), (PgOid.TIME_ARRAY, .timeArray),
   (PgOid.TIMETZ_ARRAY, .timeArray), (PgOid.TIMESTAMP_ARRAY, .dateTimeArray),
   (PgOid.TIMESTAMPTZ_ARRAY, .dateTimeArray), (PgOid.NUMERIC_ARRAY, .numericArray),
   (PgOid.MONEY_ARRAY, .numericArray), (PgOid.JSON_ARRAY, .jsonArray),
   (PgOid.JSONB_ARRAY, .jsonArray), (PgOid.UUID_ARRAY, .uuidArray),
   (PgOid.OID_ARRAY, .int64Array), (PgOid.BPCHAR_ARRAY, .textArray),
   (PgOid.TEXT_ARRAY, .textArray), (PgOid.VARCHAR_ARRAY, .textArray),
   (PgOid.BIT_ARRAY, .textArray), (PgOid.VARBIT_ARRAY, .textArray),
   (PgOid.INET_ARRAY, .textArray), (PgOid.CIDR_ARRAY, .textArray),
   (PgOid.XML_ARRAY, .textArray), (PgOid.NAME_ARRAY, .textArray),
   (PgOid.CHAR_ARRAY, .characterArray), (PgOid.BYTEA_ARRAY, .bytesArray)]

/-- Lookup in the arrayMapping record. -/
def arrayMapping (oid : Nat) : Option ColumnType := arrayMappingList.lookup oid

/-- Model of fieldToColumnType of src/conversion.ts.  A normal return is
ok, and throwing UnsupportedNativeDataType is error carrying the offending
OID (the exception stores the OID in its type field). -/
def fieldToColumnType (oid : Nat) : Except Nat ColumnType :=
  match scalarMapping oid with
  | some scalar => .ok scalar
  | none =>
    match arrayMapping oid with
    | some array => .ok array
    | none =>
      if FIRST_NORMAL_OBJECT_ID ≤ oid then .ok .text
      else .error oid

/-! ## JavaScript runtime values, as seen by the type-inference fallback -/

/-- JavaScript values relevant to inferOidFromValue, following the typeof
dispatch of src/conversion.ts.  Numbers are rationals (module comment);
Date instances and binary buffers carry no payload because inference only
inspects their type. -/
inductive JSValue where
  | null : JSValue
  | undefined : JSValue
  | bool : Bool → JSValue
  | bigint : Int → JSValue
  | num : ℚ → JSValue
  | date : JSValue
  | bytes : JSValue
  | str : List Char → JSValue
  | arr : List JSValue → JSValue
  | obj : List (List Char × JSValue) → JSValue

/-- INT32 range constants of src/conversion.ts as JavaScript numbers. -/
def INT32_MIN_NUM : ℚ := -2147483648

/-- Upper bound of the INT32 range. -/
def INT32_MAX_NUM : ℚ := 2147483647

/-- Model of Number.isInteger on a finite JavaScript number. -/
def numIsInteger (q : ℚ) : Bool := q.den == 1

/-- Model of isInt32 of src/conversion.ts. -/
def isInt32 (num : ℚ) : Bool :=
  numIsInteger num && decide (INT32_MIN_NUM ≤ num) && decide (num ≤ INT32_MAX_NUM)

/-- Test matching the regular expression [^]-?[0-9]+[$] of RE_INT8_STRING. -/
def reInt8 (s : List Char) : Bool :=
  match s with
  | [] => false
  | c :: t => if c = '-' then !t.isEmpty && t.all Char.isDigit else (c :: t).all Char.isDigit

/-- Exact value of a decimal string with optional leading minus, the value
Number produces on such a string of at most 10 digits (below 2 to the 53rd
power, hence exact, and always finite). -/
def parseDec (s : List Char) : Int :=
  match s with
  | [] => 0
  | c :: t => if c = '-' then -(digitsVal t : Int) else (digitsVal (c :: t) : Int)

/-- Model of isInt8String of src/conversion.ts.  The Number.isFinite
fallback branch of the source is unreachable here because a string of at
most 10 digits always converts to a finite double. -/
def isInt8String (s : List Char) : Bool :=
  if reInt8 s = false then false
  else
    let signOffset : Nat := if s.head? = some '-' then 1 else 0
    if 10 < s.length - signOffset then true
    else decide (parseDec s < -2147483648) || decide (2147483647 < parseDec s)

/-- Core of RE_NUMERIC_STRING after the optional minus: digits, a decimal
point, digits. -/
def reNumericCore (t : List Char) : Bool :=
  match t.span Char.isDigit with
  | (a, r) =>
    match r with
    | '.' :: b => !a.isEmpty && !b.isEmpty && b.all Char.isDigit
    | _ => false

/-- Model of isNumericString of src/conversion.ts
(RE_NUMERIC_STRING, anchored -?digits.digits). -/
def isNumericString (s : List Char) : Bool :=
  match s with
  | [] => false
  | c :: t => if c = '-' then reNumericCore t else reNumericCore (c :: t)

/-- Consume exactly n characters satisfying p. -/
def eatChars (p : Char → Bool) : Nat → List Char → Option (List Char)
  | 0, l => some l
  | _ + 1, [] => none
  | n + 1, c :: t => if p c then eatChars p n t else none

/-- Case-insensitive hexadecimal digit as in RE_UUID_STRING. -/
def isUuidHexChar (c : Char) : Bool :=
  c.isDigit || ('a' ≤ c && c ≤ 'f') || ('A' ≤ c && c ≤ 'F')

/-- Consume one expected character. -/
def eatChar (c : Char) : List Char → Option (List Char)
  | [] => none
  | x :: t => if x = c then some t else none

/-- Remainder after matching the 8-4-4-4-12 hexadecimal groups of
RE_UUID_STRING. -/
def uuidRest (s : List Char) : Option (List Char) :=
  (((((((((eatChars isUuidHexChar 8 s).bind (eatChar '-')).bind
    (eatChars isUuidHexChar 4)).bind (eatChar '-')).bind
    (eatChars isUuidHexChar 4)).bind (eatChar '-')).bind
    (eatChars isUuidHexChar 4)).bind (eatChar '-')).bind
    (eatChars isUuidHexChar 12))

/-- Model of isUuidString of src/conversion.ts (anchored RE_UUID_STRING). -/
def isUuidString (s : List Char) : Bool :=
  match uuidRest s with
  | some [] => true
  | _ => false

/-- Match of RE_TIME_STRING: two digits, colon, two digits, colon, two
digits, optional fraction, optional timezone offset, end of string. -/
def reTime (s : List Char) : Bool :=
  match (((((eatChars Char.isDigit 2 s).bind (eatChar ':')).bind
      (eatChars Char.isDigit 2)).bind (eatChar ':')).bind
      (eatChars Char.isDigit 2)) with
  | none => false
  | some r =>
    let afterFrac : Option (List Char) :=
      match r with
      | '.' :: t =>
        match t.span Char.isDigit with
        | (ds, r1) => if ds.isEmpty then none else some r1
      | _ => some r
    match afterFrac with
    | none => false
    | some r1 =>
      match r1 with
      | [] => true
      | c :: t =>
        if c = '+' || c = '-' then
          match eatChars Char.isDigit 2 t with
          | none => false
          | some r2 =>
            match r2 with
            | [] => true
            | ':' :: r3 =>
              match eatChars Char.isDigit 2 r3 with
              | some [] => true
              | _ => false
            | _ => false
        else false

/-- Model of isTimeString of src/conversion.ts. -/
def isTimeString (s : List Char) : Bool :=
  reTime s && !s.contains '+' && !s.contains '-'

/-- Model of isTimetzString of src/conversion.ts. -/
def isTimetzString (s : List Char) : Bool :=
  reTime s && (s.contains '+' || s.contains '-')

/-- Strip one leading minus sign, the optional -? head of the anchored
regular expressions. -/
def stripLeadingMinus (s : List Char) : List Char :=
  match s with
  | [] => []
  | c :: t => if c = '-' then t else c :: t

/-- Model of isMoneyString of src/conversion.ts (RE_MONEY_STRING,
anchored -?[$][0-9,]+.[0-9][0-9]). -/
def isMoneyString (s : List Char) : Bool :=
  match stripLeadingMinus s with
  | [] => false
  | c :: r =>
    if c = '$' then
      match r.span (fun x => x.isDigit || x = ',') with
      | (a, r1) =>
        match r1 with
        | '.' :: d1 :: d2 :: rest => !a.isEmpty && d1.isDigit && d2.isDigit && rest.isEmpty
        | _ => false
    else false

/-- All characters are 0 or 1, the body of RE_BIT_STRING. -/
def all01 (s : List Char) : Bool := s.all fun c => c = '0' || c = '1'

/-- Model of isBitString of src/conversion.ts, with its redundant
single-character branch kept. -/
def isBitString (s : List Char) : Bool :=
  if s.length = 0 then false
  else if all01 s = false then false
  else if s.length = 1 then decide (s = ['0']) || decide (s = ['1'])
  else true

/-- Model of isJsonString of src/conversion.ts: first character is an
opening brace or bracket, JSON.parse succeeds, and the parsed result is an
object or array (typeof object and not null). -/
def isJsonString (s : List Char) : Bool :=
  match s with
  | [] => false
  | c :: _ =>
    if c = '\x7b' || c = '[' then
      match jsonParse s with
      | some (.obj _) => true
      | some (.arr _) => true
      | _ => false
    else false

/-- Model of inferStringArrayOid of src/conversion.ts. -/
def inferStringArrayOid (value : List Char) : Nat :=
  if isBitString value then PgOid.BIT_ARRAY
  else if isUuidString value then PgOid.UUID_ARRAY
  else if isTimetzString value then PgOid.TIMETZ_ARRAY
  else if isTimeString value then PgOid.TIME_ARRAY
  else if isMoneyString value then PgOid.MONEY_ARRAY
  else if isInt8String value then PgOid.INT8_ARRAY
  else if isNumericString value then PgOid.NUMERIC_ARRAY
  else PgOid.TEXT_ARRAY

/-- Model of inferStringOid of src/conversion.ts; the order of the checks
follows the source. -/
def inferStringOid (value : List Char) : Nat :=
  if isJsonString value then PgOid.JSON
  else if isBitString value then PgOid.BIT
  else if isUuidString value then PgOid.UUID
  else if isTimetzString value then PgOid.TIMETZ
  else if isTimeString value then PgOid.TIME
  else if isMoneyString value then PgOid.MONEY
  else if isInt8String value then PgOid.INT8
  else if isNumericString value then PgOid.NUMERIC
  else PgOid.TEXT

/-- JavaScript null or undefined. -/
def isNullish : JSValue → Bool
  | .null => true
  | .undefined => true
  | _ => false

/-- Model of arr.find of inferArrayOid: the first element that is neither
null nor undefined. -/
def jsFindNonNullish : List JSValue → Option JSValue
  | [] => none
  | v :: t => if isNullish v then jsFindNonNullish t else some v

/-- Model of inferArrayOid of src/conversion.ts.  A nested array reaches
the typeof object case of the source, exactly like a plain object, and
infers the scalar JSONB OID; the final TEXT_ARRAY corresponds to the
closing fallback return of the source. -/
def inferArrayOid (arr : List JSValue) : Nat :=
  match arr with
  | [] => PgOid.TEXT_ARRAY
  | _ :: _ =>
    match jsFindNonNullish arr with
    | none => PgOid.TEXT_ARRAY
    | some first =>
      match first with
      | .num q =>
        if numIsInteger q = false then PgOid.FLOAT8_ARRAY
        else if isInt32 q then PgOid.INT4_ARRAY else PgOid.INT8_ARRAY
      | .bigint _ => PgOid.INT8_ARRAY
      | .str s => inferStringArrayOid s
      | .bool _ => PgOid.BOOL_ARRAY
      | .date => PgOid.TIMESTAMPTZ_ARRAY
      | .bytes => PgOid.BYTEA_ARRAY
      | .arr _ => PgOid.JSONB
      | .obj _ => PgOid.JSONB
      | .null => PgOid.TEXT_ARRAY
      | .undefined => PgOid.TEXT_ARRAY

/-- Model of inferOidFromValue of src/conversion.ts; the typeof dispatch
of the source is mutually exclusive, so constructor dispatch is faithful. -/
def inferOidFromValue : JSValue → Nat
  | .null => PgOid.TEXT
  | .undefined => PgOid.TEXT
  | .bool _ => PgOid.BOOL
  | .bigint _ => PgOid.INT8
  | .num q =>
    if numIsInteger q = false then PgOid.FLOAT8
    else if isInt32 q then PgOid.INT4 else PgOid.INT8
  | .date => PgOid.TIMESTAMPTZ
  | .bytes => PgOid.BYTEA
  | .arr l => inferArrayOid l
  | .obj _ => PgOid.JSONB
  | .str s => inferStringOid s

/-- Model of normalizeJson of src/conversion.ts: always re-serialize the
already-parsed value to one JSON text string via JSON.stringify. -/
def normalizeJson (value : Json) : List Char := jsonStringify value

/-! ## Query execution model: performIO of src/adapter.ts -/

/-- Column descriptor as built by performIO. -/
structure ColumnMetadataM where
  name : List Char
  colType : Nat
deriving DecidableEq

/-- Result of performIO: column descriptors, array rows, and the affected
row count. -/
structure QueryResultM where
  columns : List ColumnMetadataM
  rows : List (List JSValue)
  rowCount : Nat

/-- JavaScript property access row[name] on a result object: the value if
the key is present, undefined otherwise (object keys are unique). -/
def objGet (row : List (List Char × JSValue)) (name : List Char) : JSValue :=
  match row.lookup name with
  | some v => v
  | none => .undefined

/-- Model of findFirstNonNullInColumn of src/conversion.ts. An index past
the row yields undefined, which is skipped like null. -/
def findFirstNonNullInColumn : List (List JSValue) → Nat → JSValue
  | [], _ => .null
  | row :: rest, colIndex =>
    let val := row.getD colIndex .undefined
    if isNullish val then findFirstNonNullInColumn rest colIndex else val

/-- Map over a list with the running element index. -/
def mapWithIndex {α β : Type} (g : Nat → α → β) : Nat → List α → List β
  | _, [] => []
  | i, a :: t => g i a :: mapWithIndex g (i + 1) t

/-- Model of performIO of src/adapter.ts after the underlying client
returned object rows.  countField models result.count (present only for
data-modifying statements), columnsMeta models result.columns (the
metadata path, unavailable in current Bun), and result is the list of
returned object rows.  The catch-and-rethrow wrapper around the client
call only converts client errors and is outside this pure result
processing. -/
def performIOModel (countField : Option Nat) (columnsMeta : Option (List (List Char × Nat)))
    (result : List (List (List Char × JSValue))) : QueryResultM :=
  let rowCount := countField.getD result.length
  let fallback : QueryResultM :=
    match result with
    | [] => ⟨[], [], rowCount⟩
    | firstRow :: _ =>
      let columnNames := firstRow.map Prod.fst
      let rows := result.map fun row => columnNames.map (objGet row)
      let columns := mapWithIndex
        (fun i name => ⟨name, inferOidFromValue (findFirstNonNullInColumn rows i)⟩) 0 columnNames
      ⟨columns, rows, rowCount⟩
  match columnsMeta with
  | some cols =>
    if cols.length > 0 then
      let columns := cols.map fun c => (⟨c.1, c.2⟩ : ColumnMetadataM)
      let rows := result.map fun row => columns.map fun col => objGet row col.name
      ⟨columns, rows, rowCount⟩
    else fallback
  | none => fallback

/-! ## Transaction orchestration: startTransaction of src/adapter.ts -/

/-- Counters of the calls startTransaction makes on the pool and on the
reserved connection. -/
structure ConnState where
  reserveCalls : Nat
  releaseCalls : Nat
  rollbackCalls : Nat
deriving DecidableEq

/-- Errors startTransaction can propagate: the isolation-level validation
error, or a driver error from one of the executed statements, identified
abstractly by a numeric id. -/
inductive TxError where
  | invalidIsolationLevel : TxError
  | driverError : Nat → TxError
deriving DecidableEq

/-- The transaction handle returned on success; it holds the reserved
connection. -/
structure BunTransactionHandle where
  ownsReservedConnection : Bool
deriving DecidableEq

/-- State-and-exception monad for the orchestration model: state survives
a throw, as JavaScript side effects do. -/
def TxM (α : Type) : Type := ConnState → Except TxError α × ConnState

instance : Monad TxM where
  pure a := fun st => (.ok a, st)
  bind m g := fun st =>
    match m st with
    | (.ok a, st1) => g a st1
    | (.error e, st1) => (.error e, st1)

/-- Model of a JavaScript try-catch block. -/
def txTry {α : Type} (m : TxM α) (handler : TxError → TxM α) : TxM α := fun st =>
  match m st with
  | (.ok a, st1) => (.ok a, st1)
  | (.error e, st1) => handler e st1

/-- Model of throw. -/
def txThrow {α : Type} (e : TxError) : TxM α := fun st => (.error e, st)

/-- Model of client.reserve(); the claims concern the paths on which the
reservation itself succeeds. -/
def reserveConn : TxM Unit := fun st =>
  (.ok (), { st with reserveCalls := st.reserveCalls + 1 })

/-- Model of reserved.release(). -/
def releaseConn : TxM Unit := fun st =>
  (.ok (), { st with releaseCalls := st.releaseCalls + 1 })

/-- Model of one tx.executeRaw statement (BEGIN, or SET TRANSACTION
ISOLATION LEVEL): the environment says whether it throws, and with which
error id. -/
def execRawOnTx (outcome : Option Nat) : TxM Unit := fun st =>
  (match outcome with
   | some e => .error (.driverError e)
   | none => .ok (), st)

/-- Model of reserved.unsafe ROLLBACK during cleanup: the attempt is
counted, and the environment says whether it fails. -/
def rollbackOnReserved (outcome : Option Nat) : TxM Unit := fun st =>
  (match outcome with
   | some e => .error (.driverError e)
   | none => .ok (), { st with rollbackCalls := st.rollbackCalls + 1 })

/-- The valid isolation levels of src/adapter.ts. -/
def VALID_ISOLATION_LEVELS : List (List Char) :=
  [String.toList "READ UNCOMMITTED", String.toList "READ COMMITTED",
   String.toList "REPEATABLE READ", String.toList "SERIALIZABLE"]

/-- Membership test with the toUpperCase call of the source. -/
def isValidIsolationLevel (iso : List Char) : Bool :=
  VALID_ISOLATION_LEVELS.contains (iso.map Char.toUpper)

/-- Model of PrismaBunAdapter.startTransaction: validate the isolation
level, reserve a connection, issue BEGIN and optionally SET TRANSACTION
ISOLATION LEVEL through the transaction handle, and on any failure after
the reservation attempt a ROLLBACK (ignoring its own failure), release the
reserved connection, and rethrow the original error. -/
def startTransactionModel (isolationLevel : Option (List Char))
    (beginOutcome setOutcome rollbackOutcome : Option Nat) : TxM BunTransactionHandle := do
  match isolationLevel with
  | some iso =>
    if !isValidIsolationLevel iso then txThrow .invalidIsolationLevel else pure ()
  | none => pure ()
  reserveConn
  txTry
    (do execRawOnTx beginOutcome
        match isolationLevel with
        | some _ => execRawOnTx setOutcome
        | none => pure ()
        pure { ownsReservedConnection := true })
    (fun error => do
      txTry (rollbackOnReserved rollbackOutcome) (fun _ => pure ())
      releaseConn
      txThrow error)

/-- Run the orchestration model from the initial state (no reservation,
no release, no rollback). -/
def runStartTransaction (isolationLevel : Option (List Char))
    (beginOutcome setOutcome rollbackOutcome : Option Nat) :
    Except TxError BunTransactionHandle × ConnState :=
  startTransactionModel isolationLevel beginOutcome setOutcome rollbackOutcome ⟨0, 0, 0⟩

/-! ## Transaction handle termination: BunTransaction of src/adapter.ts -/

/-- Observable operations on the reserved connection of a transaction
handle. -/
inductive ConnEffect where
  | sqlExec : List Char → ConnEffect
  | connRelease : ConnEffect
deriving DecidableEq

/-- State of a BunTransaction: the released flag, plus an effect-counting
view of the underlying reserved connection. -/
structure BunTransactionState where
  released : Bool
  clientReleaseCalls : Nat
deriving DecidableEq

/-- Model of the private release method: release the client connection
only on the first call. -/
def txHandleRelease (s : BunTransactionState) : BunTransactionState × List ConnEffect :=
  if s.released then (s, [])
  else ({ released := true, clientReleaseCalls := s.clientReleaseCalls + 1 }, [.connRelease])

/-- Model of BunTransaction.commit: only release the reserved connection;
the engine already sent COMMIT through executeRaw. -/
def txCommit (s : BunTransactionState) : BunTransactionState × List ConnEffect :=
  txHandleRelease s

/-- Model of BunTransaction.rollback: only release the reserved
connection; the engine already sent ROLLBACK through executeRaw. -/
def txRollback (s : BunTransactionState) : BunTransactionState × List ConnEffect :=
  txHandleRelease s

/-- A terminal call on a transaction handle. -/
inductive TerminalCall where
  | commit : TerminalCall
  | rollback : TerminalCall
deriving DecidableEq

/-- Apply one terminal call. -/
def applyTerminalCall (s : BunTransactionState) : TerminalCall → BunTransactionState
  | .commit => (txCommit s).1
  | .rollback => (txRollback s).1

/-- Run a sequence of terminal calls. -/
def runTerminalCalls (calls : List TerminalCall) (s : BunTransactionState) :
    BunTransactionState :=
  calls.foldl applyTerminalCall s

/-- State of a freshly created transaction handle. -/
def initialTxState : BunTransactionState := ⟨false, 0⟩

/-! ## Error translation: convertDriverError of src/errors.ts -/

/-- Constraint description attached to constraint-violation kinds. -/
inductive ConstraintInfo where
  | fieldList : List String → ConstraintInfo
  | indexName : String → ConstraintInfo
deriving DecidableEq

/-- Shape of a Bun SQL.PostgresError: errno holds the PostgreSQL error
code and code the internal Bun code. -/
structure PgErrorShape where
  errno : Option String
  code : String
  message : String
  severity : Option String
  detail : Option String
  column : Option String
  hint : Option String
  table : Option String
  constraintName : Option String

/-- A thrown value reaching convertDriverError, by runtime class. -/
inductive DriverThrow where
  | pgServerError : PgErrorShape → DriverThrow
  | sqlClientError : Option String → String → DriverThrow
  | genericError : Option String → String → DriverThrow
  | nonError : String → DriverThrow

/-- Structured adapter error: the kind tag plus the union of the optional
fields the kinds carry. -/
structure AdapterError where
  kind : String
  originalCode : Option String := none
  originalMessage : Option String := none
  code : Option String := none
  message : Option String := none
  severity : Option String := none
  detail : Option String := none
  column : Option String := none
  hint : Option String := none
  constraintInfo : Option ConstraintInfo := none
  db : Option String := none
  table : Option String := none
  cause : Option String := none
  reason : Option String := none

/-- Does the second list start with the first? -/
def startsWithList : List Char → List Char → Bool
  | [], _ => true
  | _ :: _, [] => false
  | p :: ps, c :: cs => p = c && startsWithList ps cs

/-- Model of String.prototype.includes: the pattern occurs at some
position of the text. -/
def containsSubList (sub : List Char) : List Char → Bool
  | [] => startsWithList sub []
  | c :: cs => if startsWithList sub (c :: cs) then true else containsSubList sub cs

/-- Substring test on strings. -/
def strContainsSub (hay sub : String) : Bool := containsSubList sub.toList hay.toList

/-- Shortest capture of the lazy group of the pattern Key [(](.+?)[)]= :
accumulate characters (newline stops the dot) until the closing
parenthesis-equals, requiring at least one captured character. -/
def captureTo : List Char → List Char → Option (List Char)
  | _, [] => none
  | acc, c :: cs =>
    if acc.isEmpty = false && startsWithList [')', '='] (c :: cs) then some acc.reverse
    else if c = '\n' then none
    else captureTo (c :: acc) cs

/-- First successful match of the pattern Key [(](.+?)[)]= in the detail
text: the regex engine scans start positions left to right. -/
def findKeyCapture : List Char → Option (List Char)
  | [] => none
  | c :: cs =>
    if startsWithList (String.toList "Key (") (c :: cs) then
      match captureTo [] ((c :: cs).drop 5) with
      | some cap => some cap
      | none => findKeyCapture cs
    else findKeyCapture cs

/-- Split a character list on commas. -/
def splitOnComma (cur : List Char) : List Char → List (List Char)
  | [] => [cur.reverse]
  | c :: cs =>
    if c = ',' then cur.reverse :: splitOnComma [] cs else splitOnComma (c :: cur) cs

/-- Model of String.prototype.trim on the whitespace the detail text can
contain. -/
def trimChars (s : List Char) : List Char :=
  ((s.dropWhile isWsChar).reverse.dropWhile isWsChar).reverse

/-- Model of extractConstraintFields of src/errors.ts. -/
def extractConstraintFields (detail : Option String) : Option ConstraintInfo :=
  match detail with
  | none => none
  | some d =>
    match findKeyCapture d.toList with
    | some cap => some (.fieldList ((splitOnComma [] cap).map fun p => String.mk (trimChars p)))
    | none => none

/-- Model of getPgErrorCode of src/errors.ts: prefer errno over code. -/
def getPgErrorCode (e : PgErrorShape) : String := e.errno.getD e.code

/-- Kind-specific fields of mapPostgresError of src/errors.ts: the switch
on the PostgreSQL error code, without the diagnostic base. -/
def mapPostgresErrorBody (e : PgErrorShape) : AdapterError :=
  let pgCode := getPgErrorCode e
  if pgCode = "22001" then { kind := "LengthMismatch", column := e.column }
  else if pgCode = "22003" then { kind := "ValueOutOfRange", cause := some e.message }
  else if pgCode = "22P02" then { kind := "InvalidInputValue", message := some e.message }
  else if pgCode = "23505" then
    { kind := "UniqueConstraintViolation"
      constraintInfo := match extractConstraintFields e.detail with
        | some cf => some cf
        | none => e.constraintName.map .indexName }
  else if pgCode = "23502" then
    { kind := "NullConstraintViolation"
      constraintInfo := e.column.map fun c => .fieldList [c] }
  else if pgCode = "23503" then
    { kind := "ForeignKeyConstraintViolation"
      constraintInfo := match extractConstraintFields e.detail with
        | some cf => some cf
        | none => e.constraintName.map .indexName }
  else if pgCode = "3D000" then { kind := "DatabaseDoesNotExist", db := some e.message }
  else if pgCode = "42P04" then { kind := "DatabaseAlreadyExists", db := some e.message }
  else if pgCode = "28000" then { kind := "DatabaseAccessDenied" }
  else if pgCode = "28P01" then { kind := "AuthenticationFailed" }
  else if pgCode = "40001" then { kind := "TransactionWriteConflict" }
  else if pgCode = "42P01" then { kind := "TableDoesNotExist", table := e.table }
  else if pgCode = "42703" then { kind := "ColumnNotFound", column := e.column }
  else if pgCode = "53300" then { kind := "TooManyConnections", cause := some e.message }
  else
    { kind := "postgres"
      code := some pgCode
      severity := some (e.severity.getD "ERROR")
      message := some e.message
      detail := e.detail
      column := e.column
      hint := e.hint }

/-- Model of mapPostgresError of src/errors.ts: every branch of the
switch spreads the diagnostic base of originalCode and originalMessage
into the kind-specific fields. -/
def mapPostgresError (e : PgErrorShape) : AdapterError :=
  { mapPostgresErrorBody e with
    originalCode := some (getPgErrorCode e)
    originalMessage := some e.message }

/-- Kind-specific fields of mapConnectionError of src/errors.ts: the
classification by substring or equality match on the client-internal
code. -/
def mapConnectionErrorBody (errCode : Option String) (message : String) : AdapterError :=
  let c := errCode.getD ""
  if strContainsSub c "CONNECTION_CLOSED" || c = "ECONNRESET" then
    { kind := "ConnectionClosed" }
  else if strContainsSub c "CONNECTION_TIMEOUT" || c = "ETIMEDOUT"
      || strContainsSub c "IDLE_TIMEOUT" || strContainsSub c "LIFETIME_TIMEOUT" then
    { kind := "SocketTimeout" }
  else if strContainsSub c "TLS" || strContainsSub c "SSL" then
    { kind := "TlsConnectionError"
      reason := some message }
  else if strContainsSub c "AUTHENTICATION_FAILED" then
    { kind := "AuthenticationFailed" }
  else if c = "ENOTFOUND" || c = "ECONNREFUSED" then
    { kind := "DatabaseNotReachable" }
  else
    { kind := "postgres"
      code := some c
      severity := some "ERROR"
      message := some message }

/-- Model of mapConnectionError of src/errors.ts for SQLError and generic
Error inputs: the diagnostic base is spread into every branch. -/
def mapConnectionError (errCode : Option String) (message : String) : AdapterError :=
  { mapConnectionErrorBody errCode message with
    originalCode := some (errCode.getD "")
    originalMessage := some message }

/-- Model of convertDriverError of src/errors.ts.  The final fallback for
non-Error thrown values builds the generic postgres kind from String of
the input, without the diagnostic base. -/
def convertDriverError : DriverThrow → AdapterError
  | .pgServerError e => mapPostgresError e
  | .sqlClientError c m => mapConnectionError c m
  | .genericError c m => mapConnectionError c m
  | .nonError s =>
    { kind := "postgres"
      code := some "UNKNOWN"
      severity := some "ERROR"
      message := some s }

/-! ## Embedding of parsed JSON values into runtime values -/

mutual

/-- A parsed JSON value as the JavaScript runtime value Bun hands to the
adapter (auto-parsed JSON columns). -/
def jsOfJson : Json → JSValue
  | .null => .null
  | .bool b => .bool b
  | .num n => .num (n : ℚ)
  | .str s => .str s
  | .arr items => .arr (jsOfJsonItems items)
  | .obj fields => .obj (jsOfJsonFields fields)

/-- Elementwise embedding of array elements. -/
def jsOfJsonItems : JsonItems → List JSValue
  | .nil => []
  | .cons v t => jsOfJson v :: jsOfJsonItems t

/-- Elementwise embedding of object fields. -/
def jsOfJsonFields : JsonFields → List (List Char × JSValue)
  | .nil => []
  | .cons k v t => (k, jsOfJson v) :: jsOfJsonFields t

end

/-- First non-null element of a JSON array, on the parsed side. -/
def jfindNonNull : JsonItems → Option Json
  | .nil => none
  | .cons v t =>
    match v with
    | .null => jfindNonNull t
    | _ => some v

theorem isNullish_jsOfJson : ∀ v : Json, isNullish (jsOfJson v) = true ↔ v = .null := by
  intro v
  cases v <;> simp [jsOfJson, isNullish]

theorem jsFind_of_jfind : ∀ (items : JsonItems) (v : Json), jfindNonNull items = some v →
    jsFindNonNullish (jsOfJsonItems items) = some (jsOfJson v)
  | .nil, v, h => by cases h
  | .cons w t, v, h => by
    cases w with
    | null =>
      simp only [jfindNonNull] at h
      simp only [jsOfJsonItems, jsOfJson, jsFindNonNullish, isNullish]
      exact jsFind_of_jfind t v h
    | bool b =>
      simp only [jfindNonNull] at h
      cases h
      simp [jsOfJsonItems, jsOfJson, jsFindNonNullish, isNullish]
    | num n =>
      simp only [jfindNonNull] at h
      cases h
      simp [jsOfJsonItems, jsOfJson, jsFindNonNullish, isNullish]
    | str s =>
      simp only [jfindNonNull] at h
      cases h
      simp [jsOfJsonItems, jsOfJson, jsFindNonNullish, isNullish]
    | arr a =>
      simp only [jfindNonNull] at h
      cases h
      simp [jsOfJsonItems, jsOfJson, jsFindNonNullish, isNullish]
    | obj o =>
      simp only [jfindNonNull] at h
      cases h
      simp [jsOfJsonItems, jsOfJson, jsFindNonNullish, isNullish]

/-! ## Claim theorems -/

theorem escChar_length_pos (c : Char) : 1 ≤ (escChar c).length := by
  simp only [escChar]
  split_ifs <;> simp

theorem escStr_length_ge : ∀ s : List Char, s.length ≤ (escStr s).length
  | [] => by simp [escStr]
  | c :: t => by
    have h1 := escChar_length_pos c
    have h2 := escStr_length_ge t
    simp only [escStr, List.length_append, List.length_cons]
    omega

/-- C5: for every already-parsed JSON value (object, array, string
including the empty string, number, or boolean), the Json/Jsonb
normalizer returns a string that JSON.parse accepts and that parses back
to exactly the original value; a bare string is re-quoted as a JSON
string literal and is never passed through raw. -/
theorem claim_C5_json_normalizer_roundtrip :
    (∀ v : Json, jsonParse (normalizeJson v) = some v)
  ∧ (∀ s : List Char, normalizeJson (.str s) = '"' :: (escStr s ++ ['"'])
      ∧ normalizeJson (.str s) ≠ s) := by
  constructor
  · intro v
    simpa [normalizeJson] using jsonParse_stringify v
  · intro s
    refine ⟨rfl, ?_⟩
    intro he
    have h := congrArg List.length he
    simp only [normalizeJson, jsonStringify, quoteStr, List.length_cons, List.length_append,
      List.length_singleton] at h
    have := escStr_length_ge s
    omega

/-- C4: a non-empty array whose first non-null element is a plain object
infers as the scalar Jsonb native type (column type Json, not JsonArray),
and its normalized form is one JSON-text string encoding the whole
array. -/
theorem claim_C4_object_array_is_jsonb_scalar :
    ∀ (elems : JsonItems) (fields : JsonFields),
      jfindNonNull elems = some (.obj fields) →
      inferOidFromValue (jsOfJson (.arr elems)) = PgOid.JSONB
      ∧ fieldToColumnType PgOid.JSONB = .ok .json
      ∧ fieldToColumnType PgOid.JSONB ≠ .ok .jsonArray
      ∧ jsonParse (normalizeJson (.arr elems)) = some (.arr elems) := by
  intro elems fields h
  cases elems with
  | nil => cases h
  | cons w t =>
    have hok : fieldToColumnType PgOid.JSONB = .ok .json := rfl
    have hne : fieldToColumnType PgOid.JSONB ≠ .ok .jsonArray := by
      rw [hok]
      intro hx
      exact ColumnType.noConfusion (Except.ok.inj hx)
    have hrt : jsonParse (normalizeJson (Json.arr (JsonItems.cons w t))) =
        some (Json.arr (JsonItems.cons w t)) := jsonParse_stringify _
    refine ⟨?_, hok, hne, hrt⟩
    have hfind := jsFind_of_jfind _ _ h
    simp only [jsOfJsonItems, jsOfJson] at hfind
    simp only [jsOfJson, jsOfJsonItems, inferOidFromValue]
    simp [inferArrayOid, hfind]

/-- Concrete input of C4: the array holding one object with field role
set to the string OWNER. -/
def exampleRoleArray : JsonItems :=
  .cons (.obj (.cons (String.toList "role") (.str (String.toList "OWNER")) .nil)) .nil

/-- Witness for C4 at the concrete value of the claim. -/
theorem claim_C4_witness :
    inferOidFromValue (jsOfJson (.arr exampleRoleArray)) = PgOid.JSONB
    ∧ jsonParse (normalizeJson (.arr exampleRoleArray)) = some (.arr exampleRoleArray) := by
  have h := claim_C4_object_array_is_jsonb_scalar exampleRoleArray
    (.cons (String.toList "role") (.str (String.toList "OWNER")) .nil) rfl
  exact ⟨h.1, h.2.2.2⟩

/-- C6: fieldToColumnType is total and never returns a null-like value:
below the reserved threshold it either returns the table entry or throws
UnsupportedNativeDataType carrying the offending id, and at or above the
threshold, when absent from both tables, it returns Text. -/
theorem claim_C6_forward_map_total : ∀ oid : Nat,
    ((∃ t, fieldToColumnType oid = .ok t) ∨ fieldToColumnType oid = .error oid)
  ∧ (∀ t, scalarMapping oid = some t → fieldToColumnType oid = .ok t)
  ∧ (∀ t, scalarMapping oid = none → arrayMapping oid = some t → fieldToColumnType oid = .ok t)
  ∧ (oid < FIRST_NORMAL_OBJECT_ID → scalarMapping oid = none → arrayMapping oid = none →
      fieldToColumnType oid = .error oid)
  ∧ (FIRST_NORMAL_OBJECT_ID ≤ oid → scalarMapping oid = none → arrayMapping oid = none →
      fieldToColumnType oid = .ok .text) := by
  intro oid
  refine ⟨?_, ?_, ?_, ?_, ?_⟩
  · match hs : scalarMapping oid with
    | some t => exact Or.inl ⟨t, by simp [fieldToColumnType, hs]⟩
    | none =>
      match ha : arrayMapping oid with
      | some t => exact Or.inl ⟨t, by simp [fieldToColumnType, hs, ha]⟩
      | none =>
        by_cases hth : FIRST_NORMAL_OBJECT_ID ≤ oid
        · exact Or.inl ⟨.text, by simp [fieldToColumnType, hs, ha, hth]⟩
        · refine Or.inr ?_
          simp only [fieldToColumnType, hs, ha]
          rw [if_neg hth]
  · intro t hs
    simp [fieldToColumnType, hs]
  · intro t hs ha
    simp [fieldToColumnType, hs, ha]
  · intro hlt hs ha
    simp only [fieldToColumnType, hs, ha]
    rw [if_neg (by omega)]
  · intro hge hs ha
    simp only [fieldToColumnType, hs, ha]
    rw [if_pos hge]

/-- Witness for C6 at representative OIDs of each branch. -/
theorem claim_C6_witness :
    fieldToColumnType 23 = .ok .int32
    ∧ fieldToColumnType 1007 = .ok .int32Array
    ∧ fieldToColumnType 999 = .error 999
    ∧ fieldToColumnType 20000 = .ok .text := by
  refine ⟨(claim_C6_forward_map_total 23).2.1 _ rfl,
    (claim_C6_forward_map_total 1007).2.2.1 _ rfl rfl,
    (claim_C6_forward_map_total 999).2.2.2.1 (by decide) rfl rfl,
    (claim_C6_forward_map_total 20000).2.2.2.2 (by decide) rfl rfl⟩

theorem runTerminalCalls_of_released : ∀ (calls : List TerminalCall) (s : BunTransactionState),
    s.released = true → runTerminalCalls calls s = s := by
  intro calls
  induction calls with
  | nil => intro s _; rfl
  | cons c cs ih =>
    intro s h
    have happ : applyTerminalCall s c = s := by
      cases c <;> simp [applyTerminalCall, txCommit, txRollback, txHandleRelease, h]
    simp only [runTerminalCalls, List.foldl_cons, happ]
    exact ih s h

/-- C7: over any sequence of commit and rollback calls on a fresh
transaction handle, the reserved connection is released at most once,
exactly once when at least one terminal call is made, and later terminal
calls are no-ops. -/
theorem claim_C7_terminal_release_idempotent : ∀ calls : List TerminalCall,
    (runTerminalCalls calls initialTxState).clientReleaseCalls ≤ 1
    ∧ (calls ≠ [] → (runTerminalCalls calls initialTxState).clientReleaseCalls = 1)
    ∧ (∀ extra : TerminalCall, calls ≠ [] →
        applyTerminalCall (runTerminalCalls calls initialTxState) extra =
          runTerminalCalls calls initialTxState) := by
  intro calls
  cases calls with
  | nil =>
    refine ⟨by simp [runTerminalCalls, initialTxState], fun h => absurd rfl h,
      fun _ h => absurd rfl h⟩
  | cons c cs =>
    have hfirst : applyTerminalCall initialTxState c = ⟨true, 1⟩ := by
      cases c <;> simp [applyTerminalCall, txCommit, txRollback, txHandleRelease, initialTxState]
    have hrun : runTerminalCalls (c :: cs) initialTxState = ⟨true, 1⟩ := by
      simp only [runTerminalCalls, List.foldl_cons, hfirst]
      exact runTerminalCalls_of_released cs ⟨true, 1⟩ rfl
    refine ⟨by rw [hrun], fun _ => by rw [hrun], fun extra _ => ?_⟩
    rw [hrun]
    cases extra <;> simp [applyTerminalCall, txCommit, txRollback, txHandleRelease]

/-- Witness for C7: two commits release exactly once, and a further
rollback is a no-op. -/
theorem claim_C7_witness :
    (runTerminalCalls [TerminalCall.commit, TerminalCall.commit] initialTxState).clientReleaseCalls = 1
    ∧ applyTerminalCall
        (runTerminalCalls [TerminalCall.commit, TerminalCall.commit] initialTxState)
        TerminalCall.rollback =
      runTerminalCalls [TerminalCall.commit, TerminalCall.commit] initialTxState := by
  have h := claim_C7_terminal_release_idempotent [TerminalCall.commit, TerminalCall.commit]
  exact ⟨h.2.1 (by simp), h.2.2 TerminalCall.rollback (by simp)⟩

/-- Is the effect a SQL statement execution? -/
def isSqlEffect : ConnEffect → Bool
  | .sqlExec _ => true
  | .connRelease => false

/-- C10: commit and rollback of a transaction handle execute no SQL on
the reserved connection; their only possible effect is one release of the
reserved connection back to the pool. -/
theorem claim_C10_terminal_calls_execute_no_sql : ∀ s : BunTransactionState,
    ((txCommit s).2.all fun e => !isSqlEffect e)
    ∧ ((txRollback s).2.all fun e => !isSqlEffect e)
    ∧ (txCommit s).2 = (if s.released then [] else [ConnEffect.connRelease])
    ∧ (txRollback s).2 = (if s.released then [] else [ConnEffect.connRelease]) := by
  intro s
  by_cases h : s.released <;>
    simp [txCommit, txRollback, txHandleRelease, h, isSqlEffect]

/-- Closed-form evaluation of the startTransaction model: the outcome
depends only on the validation result and on which statement fails first;
the rollback outcome is absorbed by the inner catch. -/
theorem runStartTransaction_eval : ∀ (iso : Option (List Char)) (b s rb : Option Nat),
    runStartTransaction iso b s rb =
      (match iso with
       | none =>
         (match b with
          | some e => (Except.error (TxError.driverError e), (⟨1, 1, 1⟩ : ConnState))
          | none => (Except.ok ⟨true⟩, ⟨1, 0, 0⟩))
       | some l =>
         if isValidIsolationLevel l then
           (match b with
            | some e => (Except.error (TxError.driverError e), (⟨1, 1, 1⟩ : ConnState))
            | none =>
              match s with
              | some e => (Except.error (TxError.driverError e), (⟨1, 1, 1⟩ : ConnState))
              | none => (Except.ok ⟨true⟩, ⟨1, 0, 0⟩))
         else (Except.error TxError.invalidIsolationLevel, (⟨0, 0, 0⟩ : ConnState))) := by
  intro iso b s rb
  rcases iso with _ | l
  · rcases b with _ | e1 <;> rcases s with _ | e2 <;> rcases rb with _ | e3 <;>
      simp [runStartTransaction, startTransactionModel, reserveConn, releaseConn,
        rollbackOnReserved, execRawOnTx, txTry, txThrow, bind, pure]
  · by_cases hv : isValidIsolationLevel l <;>
      rcases b with _ | e1 <;> rcases s with _ | e2 <;> rcases rb with _ | e3 <;>
      simp [runStartTransaction, startTransactionModel, reserveConn, releaseConn,
        rollbackOnReserved, execRawOnTx, txTry, txThrow, bind, pure, hv]

/-- C3: in startTransaction, whenever the reservation succeeds and a
later creation step (BEGIN or SET TRANSACTION ISOLATION LEVEL) throws,
the model attempts one ROLLBACK on the reserved connection, releases it
exactly once, and rethrows the original error; on every exit path the
reservation is either released exactly once or handed to the returned
handle, and failure of the cleanup rollback changes nothing. -/
theorem claim_C3_start_transaction_no_leak :
    ∀ (iso : Option (List Char)) (b s rb : Option Nat),
      (∀ e, b = some e →
        (match iso with | some l => isValidIsolationLevel l = true | none => True) →
        runStartTransaction iso b s rb = (.error (.driverError e), ⟨1, 1, 1⟩))
    ∧ (∀ l e, iso = some l → isValidIsolationLevel l = true → b = none → s = some e →
        runStartTransaction iso b s rb = (.error (.driverError e), ⟨1, 1, 1⟩))
    ∧ ((runStartTransaction iso b s rb).2.releaseCalls +
        (match (runStartTransaction iso b s rb).1 with
         | .ok h => if h.ownsReservedConnection then 1 else 0
         | .error _ => 0) = (runStartTransaction iso b s rb).2.reserveCalls)
    ∧ (runStartTransaction iso b s rb).2.releaseCalls ≤ 1
    ∧ runStartTransaction iso b s rb = runStartTransaction iso b s none := by
  intro iso b s rb
  refine ⟨?_, ?_, ?_, ?_, ?_⟩
  · intro e hb hval
    subst hb
    rcases iso with _ | l
    · rw [runStartTransaction_eval]
    · rw [runStartTransaction_eval]
      simp [hval]
  · intro l e hiso hval hb hs
    subst hiso
    subst hb
    subst hs
    rw [runStartTransaction_eval]
    simp [hval]
  · rw [runStartTransaction_eval]
    rcases iso with _ | l
    · rcases b with _ | e1 <;> simp
    · by_cases hv : isValidIsolationLevel l
      · rcases b with _ | e1 <;> rcases s with _ | e2 <;> simp [hv]
      · simp [hv]
  · rw [runStartTransaction_eval]
    rcases iso with _ | l
    · rcases b with _ | e1 <;> simp
    · by_cases hv : isValidIsolationLevel l
      · rcases b with _ | e1 <;> rcases s with _ | e2 <;> simp [hv]
      · simp [hv]
  · rw [runStartTransaction_eval, runStartTransaction_eval]

/-- Witness for C3: with no isolation level and a failing BEGIN, the
reservation is rolled back, released once, and the original error is
rethrown, independently of a failing cleanup rollback. -/
theorem claim_C3_witness :
    runStartTransaction none (some 3) none (some 7) = (.error (.driverError 3), ⟨1, 1, 1⟩)
    ∧ runStartTransaction (some (String.toList "serializable")) none (some 5) none =
        (.error (.driverError 5), ⟨1, 1, 1⟩) := by
  refine ⟨(claim_C3_start_transaction_no_leak none (some 3) none (some 7)).1 3 rfl trivial, ?_⟩
  exact (claim_C3_start_transaction_no_leak (some (String.toList "serializable")) none
    (some 5) none).2.1 (String.toList "serializable") 5 rfl (by decide) rfl rfl

/-- Counterexample for C8: a thrown non-Error value (a plain string)
reaches the final fallback of convertDriverError, which carries neither
originalCode nor originalMessage. -/
theorem claim_C8_counterexample :
    (convertDriverError (.nonError "boom")).originalCode = none
    ∧ (convertDriverError (.nonError "boom")).originalMessage = none
    ∧ (convertDriverError (.nonError "boom")).kind = "postgres"
    ∧ (convertDriverError (.nonError "boom")).code = some "UNKNOWN"
    ∧ (convertDriverError (.nonError "boom")).message = some "boom" :=
  ⟨rfl, rfl, rfl, rfl, rfl⟩

/-- C8 as amended: structured server errors and Error instances
(including connection-layer SQLError) always carry originalCode and
originalMessage, whatever kind is matched; a thrown non-Error value falls
back to the generic postgres kind with code UNKNOWN and the stringified
input as message, without the two diagnostic fields. -/
theorem claim_C8_amended_diagnostic_fields :
    (∀ e : PgErrorShape,
      (convertDriverError (.pgServerError e)).originalCode = some (getPgErrorCode e)
      ∧ (convertDriverError (.pgServerError e)).originalMessage = some e.message)
  ∧ (∀ (c : Option String) (m : String),
      (convertDriverError (.sqlClientError c m)).originalCode = some (c.getD "")
      ∧ (convertDriverError (.sqlClientError c m)).originalMessage = some m)
  ∧ (∀ (c : Option String) (m : String),
      (convertDriverError (.genericError c m)).originalCode = some (c.getD "")
      ∧ (convertDriverError (.genericError c m)).originalMessage = some m)
  ∧ (∀ s : String, convertDriverError (.nonError s) =
      { kind := "postgres"
        code := some "UNKNOWN"
        severity := some "ERROR"
        message := some s }) := by
  exact ⟨fun e => ⟨rfl, rfl⟩, fun c m => ⟨rfl, rfl⟩, fun c m => ⟨rfl, rfl⟩, fun s => rfl⟩

theorem objGet_nullish : ∀ (row : List (List Char × JSValue)),
    (∀ kv ∈ row, isNullish kv.2 = true) → ∀ name, isNullish (objGet row name) = true := by
  intro row
  induction row with
  | nil => intro _ name; rfl
  | cons kv t ih =>
    intro h name
    obtain ⟨k, v⟩ := kv
    simp only [objGet, List.lookup]
    cases hnk : (name == k) with
    | true =>
      simp only [hnk]
      exact h (k, v) (List.mem_cons_self _ _)
    | false =>
      simp only [hnk]
      have := ih (fun kv hm => h kv (List.mem_cons_of_mem _ hm)) name
      simpa [objGet] using this

theorem findFirst_nullish : ∀ (rows : List (List JSValue)) (i : Nat),
    (∀ row ∈ rows, ∀ x ∈ row, isNullish x = true) →
    findFirstNonNullInColumn rows i = .null := by
  intro rows
  induction rows with
  | nil => intro i _; rfl
  | cons r t ih =>
    intro i h
    have hv : isNullish (r.getD i .undefined) = true := by
      by_cases hlen : i < r.length
      · rw [List.getD_eq_getElem?_getD, List.getElem?_eq_getElem hlen]
        exact h r (List.mem_cons_self _ _) _ (List.getElem_mem hlen)
      · rw [List.getD_eq_getElem?_getD, List.getElem?_eq_none (by omega)]
        rfl
    simp only [findFirstNonNullInColumn, hv, if_pos]
    exact ih i fun row hr => h row (List.mem_cons_of_mem _ hr)

theorem mapWithIndex_all_null (rows : List (List JSValue))
    (hnull : ∀ i, findFirstNonNullInColumn rows i = .null) :
    ∀ (names : List (List Char)) (k : Nat),
      mapWithIndex
        (fun i name => (⟨name, inferOidFromValue (findFirstNonNullInColumn rows i)⟩ :
          ColumnMetadataM)) k names =
        names.map fun n => ⟨n, PgOid.TEXT⟩ := by
  intro names
  induction names with
  | nil => intro k; rfl
  | cons n t ih =>
    intro k
    simp only [mapWithIndex, List.map_cons, hnull k, ih (k + 1)]
    rfl

/-- Counterexample for C9: a one-row result whose single value is null
takes the fallback path and produces one column (typed Text) and one
row, not zero columns and zero rows. -/
theorem claim_C9_counterexample :
    (performIOModel none none [[(String.toList "a", JSValue.null)]]).columns =
      [⟨String.toList "a", PgOid.TEXT⟩]
    ∧ (performIOModel none none [[(String.toList "a", JSValue.null)]]).rows =
      [[JSValue.null]]
    ∧ (performIOModel none none [[(String.toList "a", JSValue.null)]]).columns.length = 1 :=
  ⟨rfl, rfl, rfl⟩

/-- C9 as amended: in the no-metadata fallback path, an empty result
(zero returned rows) produces zero columns and zero rows, with the row
count falling back to the result length; an all-null result with at
least one row instead produces one column per key of the first row, each
inferred as Text from its all-null column, with all rows preserved.
Neither case raises an error (the model is a total function). -/
theorem claim_C9_amended_fallback_empty_and_all_null :
    ∀ (count : Option Nat) (result : List (List (List Char × JSValue))),
      (performIOModel count none [] = ⟨[], [], count.getD 0⟩)
      ∧ (∀ firstRow rest, result = firstRow :: rest →
          (∀ row ∈ result, ∀ kv ∈ row, isNullish kv.2 = true) →
          (performIOModel count none result).columns =
            (firstRow.map Prod.fst).map (fun n => ⟨n, PgOid.TEXT⟩)
          ∧ (performIOModel count none result).rows =
            result.map fun row => (firstRow.map Prod.fst).map (objGet row)) := by
  intro count result
  constructor
  · rfl
  · intro firstRow rest hres hnull
    subst hres
    have hrowsnull : ∀ row ∈ (firstRow :: rest).map
        (fun row => (firstRow.map Prod.fst).map (objGet row)), ∀ x ∈ row, isNullish x = true := by
      intro row hr x hx
      obtain ⟨srcRow, hsrc, hrow⟩ := List.mem_map.mp hr
      subst hrow
      obtain ⟨name, _, hval⟩ := List.mem_map.mp hx
      subst hval
      exact objGet_nullish srcRow (hnull srcRow hsrc) name
    have hff : ∀ i, findFirstNonNullInColumn
        ((firstRow :: rest).map fun row => (firstRow.map Prod.fst).map (objGet row)) i = .null :=
      fun i => findFirst_nullish _ i hrowsnull
    constructor
    · simp only [performIOModel]
      exact mapWithIndex_all_null _ hff _ 0
    · rfl

/-- Witness for C9 at a concrete one-row all-null result. -/
theorem claim_C9_witness :
    performIOModel none none [] = ⟨[], [], 0⟩
    ∧ (performIOModel none none [[(String.toList "a", JSValue.null)]]).columns =
        [⟨String.toList "a", PgOid.TEXT⟩] := by
  have h := claim_C9_amended_fallback_empty_and_all_null none [[(String.toList "a", JSValue.null)]]
  refine ⟨h.1, ?_⟩
  have h2 := (h.2 [(String.toList "a", JSValue.null)] [] rfl (by decide)).1
  simpa using h2

theorem isUuidHexChar_of_digit {c : Char} (h : c.isDigit = true) : isUuidHexChar c = true := by
  simp [isUuidHexChar, h]

theorem eatChars_all (p : Char → Bool) : ∀ (n : Nat) (l : List Char), l.all p = true →
    eatChars p n l = if n ≤ l.length then some (l.drop n) else none := by
  intro n
  induction n with
  | zero => intro l _; simp [eatChars]
  | succ m ih =>
    intro l hl
    cases l with
    | nil => simp [eatChars]
    | cons c t =>
      simp only [List.all_cons, Bool.and_eq_true] at hl
      simp only [eatChars, hl.1, if_true]
      rw [ih t hl.2]
      by_cases hle : m ≤ t.length
      · rw [if_pos hle, if_pos (by simp only [List.length_cons]; omega)]
        simp
      · rw [if_neg hle, if_neg (by simp only [List.length_cons]; omega)]

theorem drop_all {p : Char → Bool} {l : List Char} (h : l.all p = true) (n : Nat) :
    (l.drop n).all p = true := by
  rw [List.all_eq_true] at *
  intro c hc
  exact h c (List.drop_subset _ _ hc)

theorem isUuidString_digits {s : List Char} (hall : s.all Char.isDigit = true) :
    isUuidString s = false := by
  have hhex : s.all isUuidHexChar = true := by
    rw [List.all_eq_true] at *
    intro c hc
    exact isUuidHexChar_of_digit (hall c hc)
  simp only [isUuidString, uuidRest]
  rw [eatChars_all _ 8 s hhex]
  by_cases h8 : 8 ≤ s.length
  · rw [if_pos h8]
    have hdall : (s.drop 8).all Char.isDigit = true := drop_all hall 8
    cases hd : s.drop 8 with
    | nil => simp [eatChar]
    | cons d r =>
      have hdigit : d.isDigit = true := by
        rw [hd] at hdall
        simp only [List.all_cons, Bool.and_eq_true] at hdall
        exact hdall.1
      have hne : d ≠ '-' := isDigit_ne_of_false hdigit (by decide)
      simp [hd, eatChar, hne]
  · rw [if_neg h8]
    simp

theorem isUuidString_minus (t : List Char) : isUuidString ('-' :: t) = false := by
  simp +decide [isUuidString, uuidRest, eatChars]

theorem reTime_digits {s : List Char} (hall : s.all Char.isDigit = true) : reTime s = false := by
  simp only [reTime]
  rw [eatChars_all _ 2 s hall]
  by_cases h2 : 2 ≤ s.length
  · rw [if_pos h2]
    have hdall : (s.drop 2).all Char.isDigit = true := drop_all hall 2
    cases hd : s.drop 2 with
    | nil => simp [eatChar]
    | cons d r =>
      have hdigit : d.isDigit = true := by
        rw [hd] at hdall
        simp only [List.all_cons, Bool.and_eq_true] at hdall
        exact hdall.1
      have hne : d ≠ ':' := isDigit_ne_of_false hdigit (by decide)
      simp [hd, eatChar, hne]
  · rw [if_neg h2]
    simp

theorem reTime_minus (t : List Char) : reTime ('-' :: t) = false := by
  simp +decide [reTime, eatChars]

theorem isMoneyString_digits {d : Char} {t : List Char} (hd : d.isDigit = true) :
    isMoneyString (d :: t) = false := by
  have h1 : d ≠ '-' := isDigit_ne_of_false hd (by decide)
  have h2 : d ≠ '$' := isDigit_ne_of_false hd (by decide)
  simp [isMoneyString, stripLeadingMinus, h1, h2]

theorem isMoneyString_minus {e : Char} {t : List Char} (he : e.isDigit = true) :
    isMoneyString ('-' :: e :: t) = false := by
  have h2 : e ≠ '$' := isDigit_ne_of_false he (by decide)
  simp [isMoneyString, stripLeadingMinus, h2]

theorem span_all_digits {l : List Char} (h : l.all Char.isDigit = true) :
    l.span Char.isDigit = (l, []) := by
  rw [List.span_eq_take_drop]
  have ht : l.takeWhile Char.isDigit = l := by
    have := takeWhile_all_append Char.isDigit l [] h (by simp)
    simpa using this
  have hd : l.dropWhile Char.isDigit = [] := by
    have := dropWhile_all_append Char.isDigit l [] h (by simp)
    simpa using this
  rw [ht, hd]

theorem reNumericCore_digits {t : List Char} (h : t.all Char.isDigit = true) :
    reNumericCore t = false := by
  have hd : t.dropWhile Char.isDigit = [] := by
    have := dropWhile_all_append Char.isDigit t [] h (by simp)
    simpa using this
  simp [reNumericCore, List.span_eq_take_drop, hd]

theorem isJsonString_head_not_bracket {c : Char} {t : List Char}
    (h1 : c ≠ '\x7b') (h2 : c ≠ '[') : isJsonString (c :: t) = false := by
  simp [isJsonString, h1, h2]

theorem isBitString_not01 {s : List Char} (h : all01 s = false) : isBitString s = false := by
  cases s with
  | nil => rfl
  | cons c t => simp [isBitString, h]

theorem isBitString_01 {s : List Char} (hne : s ≠ []) (h : all01 s = true) :
    isBitString s = true := by
  cases s with
  | nil => cases hne rfl
  | cons c t =>
    cases t with
    | nil =>
      simp only [all01, List.all_cons, List.all_nil, Bool.and_true] at h
      cases (Bool.or_eq_true _ _).mp h with
      | inl h0 =>
        have hc : c = '0' := by simpa using h0
        subst hc
        decide
      | inr h1 =>
        have hc : c = '1' := by simpa using h1
        subst hc
        decide
    | cons c2 t2 =>
      simp [isBitString, h]

theorem isInt8String_eval {s : List Char} (hre : reInt8 s = true) :
    isInt8String s =
      (decide (10 < s.length - (if s.head? = some '-' then 1 else 0))
        || decide (parseDec s < -2147483648) || decide (2147483647 < parseDec s)) := by
  simp only [isInt8String, hre]
  rw [if_neg (by simp)]
  by_cases hlen : 10 < s.length - (if s.head? = some '-' then 1 else 0)
  · rw [if_pos hlen]
    simp [hlen]
  · rw [if_neg hlen]
    simp [hlen]

theorem inferStringOid_digit_tail {s : List Char}
    (hjson : isJsonString s = false) (hbit : isBitString s = false)
    (huuid : isUuidString s = false) (httz : isTimetzString s = false)
    (htime : isTimeString s = false) (hmoney : isMoneyString s = false)
    (hnum : isNumericString s = false) :
    inferStringOid s = if isInt8String s then PgOid.INT8 else PgOid.TEXT := by
  simp [inferStringOid, hjson, hbit, huuid, httz, htime, hmoney, hnum]

def cexBits : List Char := String.toList "10101010101"

/-- C2, counterexample: the string of eleven alternating bits matches the
optional-minus-then-digits shape and its value exceeds the signed 32-bit
range, yet inference tags it BIT (column type text), not INT8 (int64),
because the bit-string check precedes the int8 check in inferStringOid. -/
theorem claim_C2_counterexample :
    reInt8 cexBits = true ∧
    2147483647 < parseDec cexBits ∧
    isInt8String cexBits = true ∧
    inferOidFromValue (.str cexBits) = PgOid.BIT ∧
    fieldToColumnType (inferOidFromValue (.str cexBits)) = .ok .text ∧
    inferOidFromValue (.str cexBits) ≠ PgOid.INT8 := by
  refine ⟨by decide, by decide, by decide, by decide, rfl, by decide⟩

/-- C2, amended: for a string of an optional leading minus sign followed
only by decimal digits, inference first checks the bit-string shape: if
every character is 0 or 1 the tag is BIT (column type text); otherwise,
if the digit count after the sign exceeds 10 or the represented integer
lies outside the signed 32-bit range the tag is INT8 (column type int64);
otherwise the tag is TEXT (column type text). -/
theorem claim_C2_amended_digit_string_inference (s : List Char)
    (hre : reInt8 s = true) :
    if all01 s = true then
      inferOidFromValue (.str s) = PgOid.BIT ∧
      fieldToColumnType (inferOidFromValue (.str s)) = .ok .text
    else if 10 < s.length - (if s.head? = some '-' then 1 else 0) ∨
        parseDec s < -2147483648 ∨ 2147483647 < parseDec s then
      inferOidFromValue (.str s) = PgOid.INT8 ∧
      fieldToColumnType (inferOidFromValue (.str s)) = .ok .int64
    else
      inferOidFromValue (.str s) = PgOid.TEXT ∧
      fieldToColumnType (inferOidFromValue (.str s)) = .ok .text := by
  cases s with
  | nil => cases hre
  | cons c t =>
    by_cases hc : c = '-'
    · subst hc
      cases t with
      | nil => simp [reInt8] at hre
      | cons e t2 =>
        rw [show reInt8 ('-' :: e :: t2) =
          (!(e :: t2).isEmpty && (e :: t2).all Char.isDigit) from rfl] at hre
        rw [show (e :: t2).isEmpty = false from rfl, Bool.not_false,
          Bool.true_and] at hre
        have he : e.isDigit = true := by
          simp only [List.all_cons, Bool.and_eq_true] at hre
          exact hre.1
        have h01f : all01 ('-' :: e :: t2) = false := by
          simp [all01]
        rw [if_neg (by rw [h01f]; exact Bool.false_ne_true)]
        have hjson : isJsonString ('-' :: e :: t2) = false :=
          isJsonString_head_not_bracket (by decide) (by decide)
        have hbit : isBitString ('-' :: e :: t2) = false := isBitString_not01 h01f
        have huuid : isUuidString ('-' :: e :: t2) = false := isUuidString_minus _
        have httz : isTimetzString ('-' :: e :: t2) = false := by
          simp [isTimetzString, reTime_minus]
        have htime : isTimeString ('-' :: e :: t2) = false := by
          simp [isTimeString, reTime_minus]
        have hmoney : isMoneyString ('-' :: e :: t2) = false := isMoneyString_minus he
        have hnum : isNumericString ('-' :: e :: t2) = false := by
          simp [isNumericString, reNumericCore_digits hre]
        have hiso := inferStringOid_digit_tail hjson hbit huuid httz htime hmoney hnum
        have hre2 : reInt8 ('-' :: e :: t2) = true := by
          rw [show reInt8 ('-' :: e :: t2) =
            (!(e :: t2).isEmpty && (e :: t2).all Char.isDigit) from rfl]
          simp [hre]
        have hint8 := isInt8String_eval hre2
        by_cases hP : 10 < ('-' :: e :: t2).length -
            (if ('-' :: e :: t2).head? = some '-' then 1 else 0) ∨
            parseDec ('-' :: e :: t2) < -2147483648 ∨
            2147483647 < parseDec ('-' :: e :: t2)
        · rw [if_pos hP]
          have ht : isInt8String ('-' :: e :: t2) = true := by
            rw [hint8]
            rcases hP with h | h | h <;> rw [decide_eq_true h] <;> simp
          have hoid : inferOidFromValue (.str ('-' :: e :: t2)) = PgOid.INT8 := by
            show inferStringOid ('-' :: e :: t2) = PgOid.INT8
            rw [hiso, if_pos ht]
          refine ⟨hoid, ?_⟩
          rw [hoid]
          rfl
        · rw [if_neg hP]
          have hf : isInt8String ('-' :: e :: t2) = false := by
            rw [hint8]
            simp only [Bool.or_eq_false_iff, decide_eq_false_iff_not]
            exact ⟨⟨fun h => hP (Or.inl h), fun h => hP (Or.inr (Or.inl h))⟩,
              fun h => hP (Or.inr (Or.inr h))⟩
          have hoid : inferOidFromValue (.str ('-' :: e :: t2)) = PgOid.TEXT := by
            show inferStringOid ('-' :: e :: t2) = PgOid.TEXT
            rw [hiso]
            simp [hf]
          refine ⟨hoid, ?_⟩
          rw [hoid]
          rfl
    · rw [show reInt8 (c :: t) = (if c = '-' then !t.isEmpty && t.all Char.isDigit
        else (c :: t).all Char.isDigit) from rfl, if_neg hc] at hre
      have hcd : c.isDigit = true := by
        simp only [List.all_cons, Bool.and_eq_true] at hre
        exact hre.1
      have hjson : isJsonString (c :: t) = false :=
        isJsonString_head_not_bracket (isDigit_ne_of_false hcd (by decide))
          (isDigit_ne_of_false hcd (by decide))
      by_cases h01 : all01 (c :: t) = true
      · rw [if_pos h01]
        have hbit : isBitString (c :: t) = true := isBitString_01 (by simp) h01
        have hoid : inferOidFromValue (.str (c :: t)) = PgOid.BIT := by
          show inferStringOid (c :: t) = PgOid.BIT
          simp [inferStringOid, hjson, hbit]
        refine ⟨hoid, ?_⟩
        rw [hoid]
        rfl
      · rw [if_neg h01]
        have h01f : all01 (c :: t) = false := by
          revert h01
          cases all01 (c :: t) <;> simp
        have hbit : isBitString (c :: t) = false := isBitString_not01 h01f
        have huuid : isUuidString (c :: t) = false := isUuidString_digits hre
        have httz : isTimetzString (c :: t) = false := by
          simp [isTimetzString, reTime_digits hre]
        have htime : isTimeString (c :: t) = false := by
          simp [isTimeString, reTime_digits hre]
        have hmoney : isMoneyString (c :: t) = false := isMoneyString_digits hcd
        have hnum : isNumericString (c :: t) = false := by
          simp [isNumericString, hc, reNumericCore_digits hre]
        have hiso := inferStringOid_digit_tail hjson hbit huuid httz htime hmoney hnum
        have hre2 : reInt8 (c :: t) = true := by
          rw [show reInt8 (c :: t) = (if c = '-' then !t.isEmpty && t.all Char.isDigit
            else (c :: t).all Char.isDigit) from rfl, if_neg hc]
          exact hre
        have hint8 := isInt8String_eval hre2
        by_cases hP : 10 < (c :: t).length -
            (if (c :: t).head? = some '-' then 1 else 0) ∨
            parseDec (c :: t) < -2147483648 ∨ 2147483647 < parseDec (c :: t)
        · rw [if_pos hP]
          have ht : isInt8String (c :: t) = true := by
            rw [hint8]
            rcases hP with h | h | h <;> rw [decide_eq_true h] <;> simp
          have hoid : inferOidFromValue (.str (c :: t)) = PgOid.INT8 := by
            show inferStringOid (c :: t) = PgOid.INT8
            rw [hiso, if_pos ht]
          refine ⟨hoid, ?_⟩
          rw [hoid]
          rfl
        · rw [if_neg hP]
          have hf : isInt8String (c :: t) = false := by
            rw [hint8]
            simp only [Bool.or_eq_false_iff, decide_eq_false_iff_not]
            exact ⟨⟨fun h => hP (Or.inl h), fun h => hP (Or.inr (Or.inl h))⟩,
              fun h => hP (Or.inr (Or.inr h))⟩
          have hoid : inferOidFromValue (.str (c :: t)) = PgOid.TEXT := by
            show inferStringOid (c :: t) = PgOid.TEXT
            rw [hiso]
            simp [hf]
          refine ⟨hoid, ?_⟩
          rw [hoid]
          rfl

/-- Witness for the amended C2 at the ten-digit string 3000000000, whose
value exceeds the signed 32-bit maximum: the inferred tag is INT8. -/
theorem claim_C2_witness :
    inferOidFromValue (.str (String.toList "3000000000")) = PgOid.INT8 ∧
    fieldToColumnType (inferOidFromValue (.str (String.toList "3000000000"))) =
      .ok .int64 := by
  have h := claim_C2_amended_digit_string_inference (String.toList "3000000000")
    (by decide)
  rw [if_neg (show ¬(all01 (String.toList "3000000000") = true) by decide)] at h
  rw [if_pos (show 10 < (String.toList "3000000000").length -
      (if (String.toList "3000000000").head? = some '-' then 1 else 0) ∨
      parseDec (String.toList "3000000000") < -2147483648 ∨
      2147483647 < parseDec (String.toList "3000000000") from
    Or.inr (Or.inr (by decide)))] at h
  exact h

theorem numIsInteger_intCast (n : ℤ) : numIsInteger (n : ℚ) = true := by
  simp [numIsInteger, Rat.den_intCast]

/-- C1: integer numbers inside the signed 32-bit range infer INT4 (column
type int32); integer numbers outside it, and every bigint, infer INT8
(column type int64); non-integer numbers infer FLOAT8 (column type
double). -/
theorem claim_C1_number_width_inference :
    (∀ q : ℚ, q.den ≠ 1 →
      inferOidFromValue (.num q) = PgOid.FLOAT8 ∧
      fieldToColumnType PgOid.FLOAT8 = .ok .double) ∧
    (∀ n : ℤ, -2147483648 ≤ n → n ≤ 2147483647 →
      inferOidFromValue (.num (n : ℚ)) = PgOid.INT4 ∧
      fieldToColumnType PgOid.INT4 = .ok .int32) ∧
    (∀ n : ℤ, n < -2147483648 ∨ 2147483647 < n →
      inferOidFromValue (.num (n : ℚ)) = PgOid.INT8 ∧
      fieldToColumnType PgOid.INT8 = .ok .int64) ∧
    (∀ n : ℤ, inferOidFromValue (.bigint n) = PgOid.INT8 ∧
      fieldToColumnType PgOid.INT8 = .ok .int64) := by
  refine ⟨?_, ?_, ?_, ?_⟩
  · intro q hq
    have hfalse : numIsInteger q = false := by
      simp [numIsInteger]
      exact hq
    refine ⟨?_, rfl⟩
    simp [inferOidFromValue, hfalse]
  · intro n hlow nhigh
    have h1 : INT32_MIN_NUM ≤ (n : ℚ) := by
      rw [INT32_MIN_NUM]
      exact_mod_cast hlow
    have h2 : (n : ℚ) ≤ INT32_MAX_NUM := by
      rw [INT32_MAX_NUM]
      exact_mod_cast nhigh
    have hisInt32 : isInt32 (n : ℚ) = true := by
      simp [isInt32, numIsInteger_intCast, decide_eq_true h1, decide_eq_true h2]
    refine ⟨?_, rfl⟩
    simp [inferOidFromValue, numIsInteger_intCast, hisInt32]
  · intro n hout
    have hisInt32 : isInt32 (n : ℚ) = false := by
      rcases hout with h | h
      · have hnot : ¬ INT32_MIN_NUM ≤ (n : ℚ) := by
          rw [INT32_MIN_NUM]
          push_neg
          exact_mod_cast h
        simp [isInt32, decide_eq_false hnot]
      · have hnot : ¬ (n : ℚ) ≤ INT32_MAX_NUM := by
          rw [INT32_MAX_NUM]
          push_neg
          exact_mod_cast h
        simp [isInt32, decide_eq_false hnot]
    refine ⟨?_, rfl⟩
    simp [inferOidFromValue, numIsInteger_intCast, hisInt32]
  · intro n
    exact ⟨rfl, rfl⟩

/-- The rational one half, written as an explicit numerator-denominator
pair so that its denominator evaluates. -/
def halfQ : ℚ := ⟨1, 2, by decide, by decide⟩

/-- Witness for C1: one half is tagged FLOAT8, five is tagged INT4,
2^31 (outside the signed 32-bit range) and the bigint seven are tagged
INT8. -/
theorem claim_C1_witness :
    inferOidFromValue (.num halfQ) = PgOid.FLOAT8 ∧
    inferOidFromValue (.num ((5 : ℤ) : ℚ)) = PgOid.INT4 ∧
    inferOidFromValue (.num ((2147483648 : ℤ) : ℚ)) = PgOid.INT8 ∧
    inferOidFromValue (.bigint 7) = PgOid.INT8 := by
  refine ⟨?_, ?_, ?_, ?_⟩
  · exact (claim_C1_number_width_inference.1 halfQ (by decide)).1
  · exact ((claim_C1_number_width_inference.2.1 5 (by decide) (by decide))).1
  · exact ((claim_C1_number_width_inference.2.2.1 2147483648
      (Or.inr (by decide)))).1
  · exact (claim_C1_number_width_inference.2.2.2 7).1
